import Mathlib

/-!
# RayTracing: a verification development of the renderer core

Shallow embedding of `Renderer.cpp`, `Renderer.h`, `Scene.h` and `Camera.cpp`.

Modelling conventions.

* `float` values are elements of an arbitrary linearly ordered field `F`
  (for instance `ℚ` or `ℝ`): additions, multiplications, divisions and
  comparisons are exact.  Rounding of these operations, infinities and NaN are
  outside the model.
* Conversions from `uint32_t` to `float` are modelled exactly
  (`roundToFloat`: IEEE-754 binary32, round to nearest, ties to even), since
  they are integer computations.
* `uint32_t` values are natural numbers, reduced modulo `2 ^ 32` where the
  source can overflow.
* The transcendental primitives of the math library the sources are compiled
  against (`sqrt`, `pow`) are parameters, collected in `GlmOps`.  The vector
  helpers of that library (`dot`, `normalize`, `reflect`, `mix`, `clamp`,
  `smoothstep`) are written out from their reference definitions.
* An unchecked `std::vector` access with an index out of range is undefined
  behaviour in the source; the embedding returns `none` there.
-/

namespace RayTracing

/-! ## Scalars and vectors -/

/-- Primitives of the math library that are not part of the sources. -/
structure GlmOps (F : Type) where
  /-- Square root, as in `glm::sqrt`. -/
  sqrt : F → F
  /-- Power function, as in `glm::pow`. -/
  pow : F → F → F

/-- Three component vector, `glm::vec3`. -/
@[ext]
structure Vec3 (F : Type) where
  x : F
  y : F
  z : F
deriving DecidableEq

/-- Four component vector, `glm::vec4` (`r g b a` are `x y z w`). -/
@[ext]
structure Vec4 (F : Type) where
  x : F
  y : F
  z : F
  w : F
deriving DecidableEq

section Generic

variable {F : Type} [LinearOrderedField F]

namespace Vec3

/-- Vector with all components equal, `glm::vec3(s)`. -/
def splat (s : F) : Vec3 F := ⟨s, s, s⟩

/-- Componentwise sum. -/
def add (v w : Vec3 F) : Vec3 F := ⟨v.x + w.x, v.y + w.y, v.z + w.z⟩

/-- Componentwise difference. -/
def sub (v w : Vec3 F) : Vec3 F := ⟨v.x - w.x, v.y - w.y, v.z - w.z⟩

/-- Componentwise negation. -/
def neg (v : Vec3 F) : Vec3 F := ⟨-v.x, -v.y, -v.z⟩

/-- Componentwise product, `vec3 * vec3`. -/
def mul (v w : Vec3 F) : Vec3 F := ⟨v.x * w.x, v.y * w.y, v.z * w.z⟩

/-- Product with a scalar, `vec3 * float`. -/
def scale (v : Vec3 F) (s : F) : Vec3 F := ⟨v.x * s, v.y * s, v.z * s⟩

/-- Quotient by a scalar, `vec3 / float`. -/
def divScalar (v : Vec3 F) (s : F) : Vec3 F := ⟨v.x / s, v.y / s, v.z / s⟩

instance : Add (Vec3 F) := ⟨add⟩
instance : Sub (Vec3 F) := ⟨sub⟩
instance : Neg (Vec3 F) := ⟨neg⟩
instance : Mul (Vec3 F) := ⟨mul⟩

end Vec3

/-- Scalar product, `glm::dot`. -/
def dot (v w : Vec3 F) : F := v.x * w.x + v.y * w.y + v.z * w.z

/-- Euclidean length, `glm::length`: the square root of `dot v v`. -/
def length (ops : GlmOps F) (v : Vec3 F) : F := ops.sqrt (dot v v)

/-- The function `glm::normalize`: `v * inversesqrt(dot(v, v))`. -/
def normalize (ops : GlmOps F) (v : Vec3 F) : Vec3 F :=
  v.scale (1 / ops.sqrt (dot v v))

/-- The function `glm::reflect`: `I - N * dot(N, I) * 2`. -/
def reflect (i n : Vec3 F) : Vec3 F := i - (n.scale (dot n i)).scale 2

/-- Scalar `glm::clamp`: `min(max(x, lo), hi)`. -/
def clamp (x lo hi : F) : F := min (max x lo) hi

/-- Componentwise `glm::clamp` with scalar bounds. -/
def clampVec (v : Vec3 F) (lo hi : F) : Vec3 F :=
  ⟨clamp v.x lo hi, clamp v.y lo hi, clamp v.z lo hi⟩

/-- Componentwise `glm::clamp` with vector bounds. -/
def clampVec3 (v lo hi : Vec3 F) : Vec3 F :=
  ⟨clamp v.x lo.x hi.x, clamp v.y lo.y hi.y, clamp v.z lo.z hi.z⟩

/-- The function `glm::mix` with a scalar weight: `x * (1 - a) + y * a`. -/
def mix (x y : Vec3 F) (a : F) : Vec3 F := x.scale (1 - a) + y.scale a

/-- The function `glm::smoothstep`. -/
def smoothstep (edge0 edge1 x : F) : F :=
  let tmp := clamp ((x - edge0) / (edge1 - edge0)) 0 1
  tmp * tmp * (3 - 2 * tmp)

/-! ## Data model (`Scene.h`, `Renderer.h`) -/

/-- Surface description, `struct Material`. -/
structure Material (F : Type) where
  albedo : Vec3 F
  metallic : F
  roughness : F
  emissionColor : Vec3 F
  emissionPower : F

/-- The only light the renderer reads, `struct DirectionalLight`. -/
structure DirectionalLight (F : Type) where
  direction : Vec3 F
  color : Vec3 F
  intensity : F

/-- Reserved light data, `struct PointLight`. -/
structure PointLight (F : Type) where
  position : Vec3 F
  color : Vec3 F
  intensity : F
  range : F

/-- Analytic sphere, `struct Sphere`. -/
structure Sphere (F : Type) where
  position : Vec3 F
  radius : F
  materialID : Nat

/-- Everything a frame reads, `struct Scene`. -/
structure Scene (F : Type) where
  materials : List (Material F)
  spheres : List (Sphere F)
  directionalLight : DirectionalLight F
  pointLights : List (PointLight F)

/-- Half line, `struct Ray`. -/
structure Ray (F : Type) where
  origin : Vec3 F
  direction : Vec3 F

/-- The constant `FLT_MAX` of `<cfloat>`: `(2 - 2 ^ (-23)) * 2 ^ 127`. -/
def FLT_MAX : F := 340282346638528859811704183484516925440

/-- Result of one intersection query, `struct HitInfo`.  The two vectors have no
initialiser in the source; they are the zero vector here. -/
structure HitInfo (F : Type) [LinearOrderedField F] where
  didHit : Bool := false
  dist : F := FLT_MAX
  hitPoint : Vec3 F := ⟨0, 0, 0⟩
  normal : Vec3 F := ⟨0, 0, 0⟩
  materialID : Nat := 0

namespace Material

/-- Emitted radiance, `Material::GetEmission`. -/
def GetEmission (mat : Material F) : Vec3 F := mat.emissionColor.scale mat.emissionPower

/-- Schlick approximation, `Material::FresnelSchlick`. -/
def FresnelSchlick (ops : GlmOps F) (mat : Material F) (cosTheta : F) : Vec3 F :=
  let minReflectance : F := 0.04
  let reflectance := mat.albedo.scale mat.metallic +
    (Vec3.splat minReflectance).scale (1 - mat.metallic)
  let powerTerm := ops.pow (clamp (1 - cosTheta) 0 1) 5
  reflectance + (Vec3.splat 1 - reflectance).scale powerTerm

end Material

namespace Scene

/-- Material lookup, `Scene::GetMaterial`; `none` stands for the out of range
access, which the source does not check. -/
def GetMaterial (scene : Scene F) (materialID : Nat) : Option (Material F) :=
  scene.materials.get? materialID

end Scene

/-! ## Intersection (`Renderer::RaySphere`, `Renderer::CalculateRayCollision`) -/

namespace Renderer

/-- Ray against one sphere, `Renderer::RaySphere`. -/
def RaySphere (ops : GlmOps F) (ray : Ray F) (sphere : Sphere F) : HitInfo F :=
  let hitInfo : HitInfo F := {}
  let offsetRayOrigin := ray.origin - sphere.position
  let a := dot ray.direction ray.direction
  let b := 2 * dot offsetRayOrigin ray.direction
  let c := dot offsetRayOrigin offsetRayOrigin - sphere.radius * sphere.radius
  let d := b * b - 4 * a * c
  if d > 0 then
    let ct := (-b - ops.sqrt d) / (2 * a)
    if ct ≥ 0 then
      let hitPoint := ray.origin + ray.direction.scale ct
      { didHit := true
        dist := ct
        hitPoint := hitPoint
        normal := normalize ops (hitPoint - sphere.position)
        materialID := sphere.materialID }
    else hitInfo
  else hitInfo

/-- Closest forward hit over the scene, `Renderer::CalculateRayCollision`: one
iteration of the loop body. -/
def collisionStep (ops : GlmOps F) (ray : Ray F) (finalHitInfo : HitInfo F)
    (sphere : Sphere F) : HitInfo F :=
  let hitInfo := RaySphere ops ray sphere
  if hitInfo.didHit && (!finalHitInfo.didHit || decide (hitInfo.dist ≤ finalHitInfo.dist)) then
    hitInfo
  else finalHitInfo

/-- Closest forward hit over the scene, `Renderer::CalculateRayCollision`. -/
def CalculateRayCollision (ops : GlmOps F) (scene : Scene F) (ray : Ray F) : HitInfo F :=
  scene.spheres.foldl (collisionStep ops ray) {}

end Renderer

/-! ## Helpers of `namespace Utils` -/

namespace Utils

/-- Number of low bits of `n` that do not fit a significand of 24 bits; `fuel`
bounds the number of halvings. -/
def excessBits : Nat → Nat → Nat
  | 0, _ => 0
  | fuel + 1, n => if n < 16777216 then 0 else excessBits fuel (n / 2) + 1

/-- Conversion of a natural number to `float`, by value: IEEE-754 binary32 keeps
24 significant bits, rounds to nearest and breaks ties towards an even
significand.  The result is again a natural number. -/
def roundToFloat (n : Nat) : Nat :=
  let e := excessBits n n
  if e = 0 then n
  else
    let q := n >>> e
    let rest := n % 2 ^ e
    let half := 2 ^ (e - 1)
    if rest > half ∨ (rest = half ∧ q % 2 = 1) then (q + 1) <<< e else q <<< e

/-- Cast of a `float` to `uint8_t`: the fractional part is dropped. -/
def toUInt8 [FloorRing F] (x : F) : Nat := Int.toNat ⌊x⌋ % 256

/-- Packing of a colour, `Utils::ConvertToRGBA`. -/
def ConvertToRGBA [FloorRing F] (color : Vec4 F) : Nat :=
  let r := toUInt8 (color.x * 255)
  let g := toUInt8 (color.y * 255)
  let b := toUInt8 (color.z * 255)
  let a := toUInt8 (color.w * 255)
  ((a <<< 24) ||| (b <<< 16) ||| (g <<< 8) ||| r) % 4294967296

/-- Integer hash, `Utils::PCG_Hash`, on 32 bit words. -/
def PCG_Hash (input : Nat) : Nat :=
  let state := (input * 747796405 + 2891336453) % 4294967296
  let word := (((state >>> ((state >>> 28) + 4)) ^^^ state) * 277803737) % 4294967296
  (word >>> 22) ^^^ word

/-- The divisor of `Utils::RandomFloat`:
`static_cast<float>(numeric_limits<uint32_t>::max()) + 1.0f`, a `float` sum. -/
def randomFloatDivisor : Nat := roundToFloat (roundToFloat 4294967295 + 1)

/-- Pseudo random number, `Utils::RandomFloat`: the value and the new seed. -/
def RandomFloat (seed : Nat) : F × Nat :=
  let seed := PCG_Hash seed
  ((roundToFloat seed : F) / (randomFloatDivisor : F), seed)

/-- Pseudo random vector, `Utils::RandomVec3`: the value and the new seed.  The
three draws are taken in the order in which they are written. -/
def RandomVec3 (seed : Nat) (min max : F) : Vec3 F × Nat :=
  let r0 : F × Nat := RandomFloat seed
  let r1 : F × Nat := RandomFloat r0.2
  let r2 : F × Nat := RandomFloat r1.2
  (⟨r0.1 * (max - min) + min, r1.1 * (max - min) + min, r2.1 * (max - min) + min⟩, r2.2)

/-- Pseudo random direction, `Utils::InUnitSphere`: the value and the new seed. -/
def InUnitSphere (ops : GlmOps F) (seed : Nat) : Vec3 F × Nat :=
  let r0 : F × Nat := RandomFloat seed
  let r1 : F × Nat := RandomFloat r0.2
  let r2 : F × Nat := RandomFloat r1.2
  (normalize ops ⟨r0.1 * 2 - 1, r1.1 * 2 - 1, r2.1 * 2 - 1⟩, r2.2)

end Utils

/-! ## Shading (`GetSkyLight`, `CalculateDirectLight`, `TraceRayOnce`) -/

/-- Tunable state of `class Renderer`, with the size of `m_FinalImage`.  The
counters are `uint32_t` in the source. -/
structure Renderer where
  m_NumRays : Nat := 2
  m_MaxBounceCount : Nat := 2
  m_JustDiffuse : Bool := false
  m_FinalImageWidth : Nat := 0
  m_FinalImageHeight : Nat := 0
  numRays_lt : m_NumRays < 4294967296 := by decide
  maxBounceCount_lt : m_MaxBounceCount < 4294967296 := by decide

namespace Renderer

/-- Procedural sky, `Renderer::GetSkyLight`. -/
def GetSkyLight (ops : GlmOps F) (ray : Ray F) : Vec3 F :=
  let dir := normalize ops ray.direction
  let skyGradientT := smoothstep 0 0.4 dir.y
  let horizonIntensity := 1 - |dir.y|
  let horizonColor : Vec3 F := ⟨0.3, 0.6, 1.0⟩
  let zenithColor : Vec3 F := ⟨0.05, 0.1, 0.3⟩
  let skyGradient := mix horizonColor zenithColor skyGradientT
  let horizonGlow := ((⟨1.0, 0.7, 0.4⟩ : Vec3 F).scale horizonIntensity).scale horizonIntensity
  let skyGradient := skyGradient + horizonGlow.scale 0.25
  let finalColor := skyGradient
  clampVec finalColor 0 10

/-- The shadow ray of `Renderer::CalculateDirectLight`. -/
def shadowRay (ops : GlmOps F) (scene : Scene F) (hitInfo : HitInfo F) : Ray F :=
  let lightDir := normalize ops scene.directionalLight.direction
  ⟨hitInfo.hitPoint + hitInfo.normal.scale 0.001, -lightDir⟩

/-- The shadow loop of `Renderer::CalculateDirectLight`: the loop leaves at the
first sphere that the shadow ray hits further than `0.001`. -/
def visibility (ops : GlmOps F) (scene : Scene F) (hitInfo : HitInfo F) : F :=
  if scene.spheres.any (fun sphere =>
      let shadowHit := RaySphere ops (shadowRay ops scene hitInfo) sphere
      shadowHit.didHit && decide (shadowHit.dist > 0.001))
  then 0.3 else 1.0

/-- Direct lighting, `Renderer::CalculateDirectLight`. -/
def CalculateDirectLight (ops : GlmOps F) (r : Renderer) (scene : Scene F)
    (hitInfo : HitInfo F) (ray : Ray F) : Option (Vec3 F) :=
  match scene.GetMaterial hitInfo.materialID with
  | none => none
  | some mat =>
    let light := scene.directionalLight
    let lightDir := normalize ops light.direction
    let visibility := visibility ops scene hitInfo
    let NdotL := max 0 (dot hitInfo.normal (-lightDir))
    let diffuse :=
      ((((mat.albedo.scale NdotL) * light.color).scale light.intensity).scale visibility)
    if r.m_JustDiffuse then some diffuse
    else
      let viewDir := normalize ops (ray.origin - hitInfo.hitPoint)
      let halfDir := normalize ops (-lightDir + viewDir)
      let roughness := max 0.01 mat.roughness
      let NdotH := max 0 (dot hitInfo.normal halfDir)
      let specular := ops.pow NdotH (1 / roughness) * light.intensity
      let specularColor := if mat.metallic > 0.5 then mat.albedo else Vec3.splat 0.8
      some (diffuse + (specularColor.scale specular).scale visibility)

end Renderer

/-- Outcome of one path: the colour (`none` when the path reads a material
that does not exist), the number of calls of `CalculateRayCollision` and the
number of recursive calls that the path made. -/
structure Trace (F : Type) where
  color : Option (Vec3 F)
  intersections : Nat
  bounces : Nat

namespace Renderer

/-- The reflected ray that `Renderer::TraceRayOnce` follows after a hit. -/
def bounceRay (ops : GlmOps F) (mat : Material F) (seed : Nat) (hitInfo : HitInfo F)
    (ray : Ray F) : Ray F :=
  let reflectionDir := reflect ray.direction hitInfo.normal
  let reflectionDir := normalize ops reflectionDir
  let reflectionDir :=
    if mat.roughness > 0 then
      let randomDir := normalize ops (Utils.RandomVec3 seed (-1) 1).1
      let randomDir := if dot randomDir hitInfo.normal < 0 then -randomDir else randomDir
      normalize ops (mix reflectionDir randomDir mat.roughness)
    else reflectionDir
  ⟨hitInfo.hitPoint + hitInfo.normal.scale 0.001, reflectionDir⟩

/-- The composition at the end of `Renderer::TraceRayOnce`. -/
def compose (ops : GlmOps F) (mat : Material F) (hitInfo : HitInfo F) (ray : Ray F)
    (directColor indirectColor : Vec3 F) : Vec3 F :=
  let totalColor := mat.GetEmission
  let cosTheta := dot (normalize ops (-ray.direction)) hitInfo.normal
  let fresnel := mat.FresnelSchlick ops cosTheta
  let metallicFactor := mat.metallic
  let diffuseFactor := (1 - metallicFactor) * (1 - fresnel.x)
  let specularFactor := metallicFactor + (1 - metallicFactor) * fresnel.x
  totalColor + mat.albedo * (directColor.scale diffuseFactor + indirectColor.scale specularFactor)

/-- One path, `Renderer::TraceRayOnce`, with its counters.  The seed that the
source reads from the clock at depth `dep` is `seedSrc dep`. -/
def TraceRayOnceCounted (ops : GlmOps F) (r : Renderer) (seedSrc : Nat → Nat)
    (scene : Scene F) (ray : Ray F) (dep : Nat) : Trace F :=
  if _hdep : dep ≥ r.m_MaxBounceCount then
    ⟨some (GetSkyLight ops ray), 0, 0⟩
  else
    let hitInfo := CalculateRayCollision ops scene ray
    if !hitInfo.didHit then
      ⟨some (GetSkyLight ops ray), 1, 0⟩
    else
      let seed := seedSrc dep % 4294967296
      match scene.GetMaterial hitInfo.materialID with
      | none => ⟨none, 1, 0⟩
      | some mat =>
        match CalculateDirectLight ops r scene hitInfo ray with
        | none => ⟨none, 1, 0⟩
        | some directColor =>
          let newRay := bounceRay ops mat seed hitInfo ray
          let indirect := TraceRayOnceCounted ops r seedSrc scene newRay ((dep + 1) % 4294967296)
          ⟨indirect.color.map (compose ops mat hitInfo ray directColor),
            1 + indirect.intersections, 1 + indirect.bounces⟩
termination_by r.m_MaxBounceCount - dep
decreasing_by
  have hmax := r.maxBounceCount_lt
  omega

/-- One path, `Renderer::TraceRayOnce`. -/
def TraceRayOnce (ops : GlmOps F) (r : Renderer) (seedSrc : Nat → Nat)
    (scene : Scene F) (ray : Ray F) (dep : Nat) : Option (Vec3 F) :=
  (TraceRayOnceCounted ops r seedSrc scene ray dep).color

end Renderer

/-! ## Camera (`Camera.cpp`) -/

/-- Four by four matrix, `glm::mat4`, as its four columns. -/
structure Mat4 (F : Type) where
  c0 : Vec4 F
  c1 : Vec4 F
  c2 : Vec4 F
  c3 : Vec4 F

/-- Product of a matrix and a column vector, `mat4 * vec4`. -/
def Mat4.mulVec (m : Mat4 F) (v : Vec4 F) : Vec4 F :=
  ⟨m.c0.x * v.x + m.c1.x * v.y + m.c2.x * v.z + m.c3.x * v.w,
   m.c0.y * v.x + m.c1.y * v.y + m.c2.y * v.z + m.c3.y * v.w,
   m.c0.z * v.x + m.c1.z * v.y + m.c2.z * v.z + m.c3.z * v.w,
   m.c0.w * v.x + m.c1.w * v.y + m.c2.w * v.z + m.c3.w * v.w⟩

/-- Matrix primitives of the math library that the camera calls. -/
structure CameraOps (F : Type) where
  /-- Degrees to radians, `glm::radians`. -/
  radians : F → F
  /-- Perspective matrix, `glm::perspectiveFov (fov, width, height, near, far)`. -/
  perspectiveFov : F → F → F → F → F → Mat4 F
  /-- Matrix inverse, `glm::inverse`. -/
  inverse : Mat4 F → Mat4 F

/-- State of `class Camera`; the members are those that `Camera.cpp` reads and
writes. -/
structure Camera (F : Type) where
  m_VertialFOV : F
  m_Near : F
  m_Far : F
  m_ForwardDirection : Vec3 F
  m_Position : Vec3 F
  m_LastMousePosition : F × F
  m_ViewportWidth : Nat
  m_ViewportHeight : Nat
  m_Projection : Mat4 F
  m_InverseProjection : Mat4 F
  m_View : Mat4 F
  m_InverseView : Mat4 F
  m_RayDirections : List (Vec3 F)

/-- Unchecked write `v[i] = a` of a `std::vector`; `none` when `i` is out of
range. -/
def writeAt {α : Type} (v : List α) (i : Nat) (a : α) : Option (List α) :=
  if i < v.length then some (v.set i a) else none

namespace Camera

/-- Projection update, `Camera::RecalculateProjection`. -/
def RecalculateProjection (cops : CameraOps F) (cam : Camera F) : Camera F :=
  let projection := cops.perspectiveFov (cops.radians cam.m_VertialFOV)
    (Utils.roundToFloat cam.m_ViewportWidth : F) (Utils.roundToFloat cam.m_ViewportHeight : F)
    cam.m_Near cam.m_Far
  { cam with m_Projection := projection, m_InverseProjection := cops.inverse projection }

/-- Direction that the inner loop body of `Camera::RecalculateRayDirections`
computes for pixel `(x, y)`. -/
def rayDirection (ops : GlmOps F) (cam : Camera F) (x y : Nat) : Vec3 F :=
  let coordX : F := (Utils.roundToFloat x : F) / (Utils.roundToFloat cam.m_ViewportWidth : F)
  let coordY : F := (Utils.roundToFloat y : F) / (Utils.roundToFloat cam.m_ViewportHeight : F)
  let coordX := coordX * 2 - 1
  let coordY := coordY * 2 - 1
  let target := cam.m_InverseProjection.mulVec ⟨coordX, coordY, 1, 1⟩
  let d := normalize ops ((⟨target.x, target.y, target.z⟩ : Vec3 F).divScalar target.w)
  let w := cam.m_InverseView.mulVec ⟨d.x, d.y, d.z, 0⟩
  ⟨w.x, w.y, w.z⟩

/-- Table after `m_RayDirections.resize (n)`: the first `n` entries are kept and
zero vectors fill the rest. -/
def resizeTable (table : List (Vec3 F)) (n : Nat) : List (Vec3 F) :=
  table.take n ++ List.replicate (n - table.length) ⟨0, 0, 0⟩

/-- Ray table update, `Camera::RecalculateRayDirections`: the two loops write
the rows in order; `none` when a write falls outside the table. -/
def RecalculateRayDirections (ops : GlmOps F) (cam : Camera F) : Option (Camera F) :=
  let table := resizeTable cam.m_RayDirections
    ((cam.m_ViewportWidth * cam.m_ViewportHeight) % 4294967296)
  let written := (List.range cam.m_ViewportHeight).foldl
    (fun acc y => (List.range cam.m_ViewportWidth).foldl
      (fun acc x => acc.bind (fun t =>
        writeAt t ((x + y * cam.m_ViewportWidth) % 4294967296) (rayDirection ops cam x y)))
      acc)
    (some table)
  written.map (fun t => { cam with m_RayDirections := t })

/-- Viewport change, `Camera::OnResize`. -/
def OnResize (ops : GlmOps F) (cops : CameraOps F) (cam : Camera F) (width height : Nat) :
    Option (Camera F) :=
  if width = cam.m_ViewportWidth ∧ height = cam.m_ViewportHeight then some cam
  else
    let cam := { cam with m_ViewportWidth := width, m_ViewportHeight := height }
    RecalculateRayDirections ops (RecalculateProjection cops cam)

end Camera

/-! ## Frame driver (`TraceRay`, `PerPixel`, `Render`) -/

namespace Renderer

/-- Sum of two optional colours, for the accumulation loop of `TraceRay`. -/
def addColor (acc c : Option (Vec3 F)) : Option (Vec3 F) :=
  match acc, c with
  | some t, some v => some (t + v)
  | _, _ => none

/-- Mean of `m_NumRays` paths, `Renderer::TraceRay`.  Path `i` reads the seeds
`seedSrc i`.  With `m_NumRays = 2 ^ 32 - 1` the loop condition `i <= m_NumRays`
never fails and the loop does not end: `none`. -/
def TraceRay (ops : GlmOps F) (r : Renderer) (seedSrc : Nat → Nat → Nat)
    (scene : Scene F) (ray : Ray F) : Option (Vec3 F) :=
  if r.m_NumRays = 4294967295 then none
  else
    let totalColor := (List.range r.m_NumRays).foldl
      (fun acc i => addColor acc (TraceRayOnce ops r (seedSrc (i + 1)) scene ray 0))
      (some ⟨0, 0, 0⟩)
    totalColor.map (fun t =>
      clampVec3 (t.divScalar (Utils.roundToFloat r.m_NumRays : F)) ⟨0, 0, 0⟩ ⟨1, 1, 1⟩)

/-- Colour of one pixel, `Renderer::PerPixel`; `none` when the ray table of
the camera has no entry for the pixel. -/
def PerPixel (ops : GlmOps F) (r : Renderer) (seedSrc : Nat → Nat → Nat)
    (scene : Scene F) (camera : Camera F) (x y : Nat) : Option (Vec4 F) :=
  let idx := (x + y * r.m_FinalImageWidth) % 4294967296
  match camera.m_RayDirections.get? idx with
  | none => none
  | some direction =>
    (TraceRay ops r seedSrc scene ⟨camera.m_Position, direction⟩).map
      (fun c => ⟨c.x, c.y, c.z, 1⟩)

/-- The body of the loops of `Renderer::Render` for pixel `(x, y)`: the index
and the word stored in `m_ImageData`.  The clock readings of the pixel are
`seedSrc x y`. -/
def renderPixel [FloorRing F] (ops : GlmOps F) (r : Renderer)
    (seedSrc : Nat → Nat → Nat → Nat → Nat) (scene : Scene F) (camera : Camera F)
    (x y : Nat) : Option (Nat × Nat) :=
  (PerPixel ops r (seedSrc x y) scene camera x y).map
    (fun color => ((x + y * r.m_FinalImageWidth) % 4294967296, Utils.ConvertToRGBA color))

end Renderer

/-! ## The quadratic of the intersection test, in the words of the specification -/

/-- Coefficient `a = dot(dir, dir)`. -/
def quadA (ray : Ray F) : F := dot ray.direction ray.direction

/-- Coefficient `b = 2 · dot(origin − center, dir)`. -/
def quadB (ray : Ray F) (sphere : Sphere F) : F :=
  2 * dot (ray.origin - sphere.position) ray.direction

/-- Coefficient `c = dot(origin − center, origin − center) − radius²`. -/
def quadC (ray : Ray F) (sphere : Sphere F) : F :=
  dot (ray.origin - sphere.position) (ray.origin - sphere.position) - sphere.radius ^ 2

/-- Discriminant `d = b² − 4ac`. -/
def discriminant (ray : Ray F) (sphere : Sphere F) : F :=
  quadB ray sphere ^ 2 - 4 * quadA ray * quadC ray sphere

/-- Smaller root `t = (−b − sqrt(d)) / (2a)`. -/
def smallerRoot (ops : GlmOps F) (ray : Ray F) (sphere : Sphere F) : F :=
  (-quadB ray sphere - ops.sqrt (discriminant ray sphere)) / (2 * quadA ray)

/-! ## Parts of the loop body of `RecalculateRayDirections` and of the blend of
`TraceRayOnce`, named for the statements below -/

namespace Camera

/-- The point `coord` that the loop body of `Camera::RecalculateRayDirections`
computes for pixel `(x, y)`: `(x / width, y / height) * 2 - 1`. -/
def pixelCoord (cam : Camera F) (x y : Nat) : F × F :=
  ((Utils.roundToFloat x : F) / (Utils.roundToFloat cam.m_ViewportWidth : F) * 2 - 1,
   (Utils.roundToFloat y : F) / (Utils.roundToFloat cam.m_ViewportHeight : F) * 2 - 1)

/-- Unprojection of a point of the image plane, as in the loop body of
`Camera::RecalculateRayDirections`: through the inverse projection, then
normalised, then through the inverse view. -/
def unproject (ops : GlmOps F) (cam : Camera F) (coord : F × F) : Vec3 F :=
  let target := cam.m_InverseProjection.mulVec ⟨coord.1, coord.2, 1, 1⟩
  let d := normalize ops ((⟨target.x, target.y, target.z⟩ : Vec3 F).divScalar target.w)
  let w := cam.m_InverseView.mulVec ⟨d.x, d.y, d.z, 0⟩
  ⟨w.x, w.y, w.z⟩

/-- Centre of pixel `(x, y)` in normalised device coordinates, in the words of
the specification: `(2 (x + 0.5) / width − 1, 2 (y + 0.5) / height − 1)`. -/
def pixelCentre (cam : Camera F) (x y : Nat) : F × F :=
  (2 * ((x : F) + 0.5) / (cam.m_ViewportWidth : F) - 1,
   2 * ((y : F) + 0.5) / (cam.m_ViewportHeight : F) - 1)

end Camera

namespace Renderer

/-- The weight `diffuseFactor` of `Renderer::TraceRayOnce`. -/
def diffuseFactor (ops : GlmOps F) (mat : Material F) (hitInfo : HitInfo F) (ray : Ray F) : F :=
  let cosTheta := dot (normalize ops (-ray.direction)) hitInfo.normal
  let fresnel := mat.FresnelSchlick ops cosTheta
  (1 - mat.metallic) * (1 - fresnel.x)

/-- The weight `specularFactor` of `Renderer::TraceRayOnce`. -/
def specularFactor (ops : GlmOps F) (mat : Material F) (hitInfo : HitInfo F) (ray : Ray F) : F :=
  let cosTheta := dot (normalize ops (-ray.direction)) hitInfo.normal
  let fresnel := mat.FresnelSchlick ops cosTheta
  mat.metallic + (1 - mat.metallic) * fresnel.x

end Renderer

/-! ## Evaluation over the rationals

Instances of the primitives and of the data model over `ℚ`, on which the
definitions above can be evaluated. -/

/-- Primitives over `ℚ`: the square root of Mathlib, exact on squares, and
powers with the exponent rounded down to a natural number. -/
def ratOps : GlmOps ℚ := ⟨Rat.sqrt, fun x y => x ^ Int.toNat ⌊y⌋⟩

/-- Unit sphere at the origin with material `0`. -/
def unitSphere : Sphere ℚ := ⟨⟨0, 0, 0⟩, 1, 0⟩

/-- Ray from `(0, 0, 5)` along the `y` axis; it passes beside `unitSphere`. -/
def missRay : Ray ℚ := ⟨⟨0, 0, 5⟩, ⟨0, 1, 0⟩⟩

/-- Scene with `unitSphere`, one grey material and a light shining down the
`z` axis. -/
def unitScene : Scene ℚ :=
  { materials := [⟨⟨4 / 5, 4 / 5, 4 / 5⟩, 0, 0, ⟨1, 1, 1⟩, 2⟩]
    spheres := [unitSphere]
    directionalLight := ⟨⟨0, 0, -1⟩, ⟨1, 1, 1⟩, 0⟩
    pointLights := [] }

/-- Ray from `(0, 0, 5)` that points at the centre of `unitSphere`, with a
direction of length `2`. -/
def towardsRay : Ray ℚ := ⟨⟨0, 0, 5⟩, ⟨0, 0, -2⟩⟩

/-- Opaque orange, with channels in `[0, 1]`. -/
def sampleColor : Vec4 ℚ := ⟨1, 1 / 2, 1 / 4, 1⟩

/-- Ray from `(0, 0, 5)` down the `z` axis, with a direction of length one; it
hits `unitSphere` at `(0, 0, 1)`. -/
def headOnRay : Ray ℚ := ⟨⟨0, 0, 5⟩, ⟨0, 0, -1⟩⟩

/-- Renderer with a single bounce. -/
def oneBounce : Renderer := { m_MaxBounceCount := 1 }

/-- Renderer in diffuse-only mode. -/
def diffuseOnly : Renderer := { m_JustDiffuse := true }

/-- Two unit spheres on the `z` axis, `3 / 2000` apart at the origin, lit along
the `z` axis from above. -/
def shadowScene : Scene ℚ :=
  { materials := [⟨⟨4 / 5, 4 / 5, 4 / 5⟩, 0, 1 / 2, ⟨0, 0, 0⟩, 0⟩]
    spheres := [⟨⟨0, 0, -1⟩, 1, 0⟩, ⟨⟨0, 0, 2003 / 2000⟩, 1, 0⟩]
    directionalLight := ⟨⟨0, 0, -1⟩, ⟨1, 1, 1⟩, 1⟩
    pointLights := [] }

/-- Hit at the top of the lower sphere of `shadowScene`. -/
def surfaceHit : HitInfo ℚ :=
  { didHit := true, dist := 4, hitPoint := ⟨0, 0, 0⟩, normal := ⟨0, 0, 1⟩, materialID := 0 }

/-- Camera at the origin that looks down the `z` axis, with a viewport of two
by one pixels, identity view matrices and a diagonal projection. -/
def sampleCamera : Camera ℚ :=
  { m_VertialFOV := 45
    m_Near := 1 / 10
    m_Far := 100
    m_ForwardDirection := ⟨0, 0, -1⟩
    m_Position := ⟨0, 0, 0⟩
    m_LastMousePosition := (0, 0)
    m_ViewportWidth := 2
    m_ViewportHeight := 1
    m_Projection := ⟨⟨2 / 3, 0, 0, 0⟩, ⟨0, 4 / 3, 0, 0⟩, ⟨0, 0, 1, 0⟩, ⟨0, 0, 0, 1⟩⟩
    m_InverseProjection := ⟨⟨3 / 2, 0, 0, 0⟩, ⟨0, 3 / 4, 0, 0⟩, ⟨0, 0, 1, 0⟩, ⟨0, 0, 0, 1⟩⟩
    m_View := ⟨⟨1, 0, 0, 0⟩, ⟨0, 1, 0, 0⟩, ⟨0, 0, 1, 0⟩, ⟨0, 0, 0, 1⟩⟩
    m_InverseView := ⟨⟨1, 0, 0, 0⟩, ⟨0, 1, 0, 0⟩, ⟨0, 0, 1, 0⟩, ⟨0, 0, 0, 1⟩⟩
    m_RayDirections := [] }

/-- Half metallic orange material, the one of the scenario of the
specification. -/
def sampleMaterial : Material ℚ := ⟨⟨4 / 5, 1 / 2, 1 / 5⟩, 1 / 2, 1 / 2, ⟨0, 0, 0⟩, 0⟩

/-! # Properties -/

/-! ## Components of vector expressions -/

@[simp] theorem Vec3.add_x (v w : Vec3 F) : (v + w).x = v.x + w.x := rfl
@[simp] theorem Vec3.add_y (v w : Vec3 F) : (v + w).y = v.y + w.y := rfl
@[simp] theorem Vec3.add_z (v w : Vec3 F) : (v + w).z = v.z + w.z := rfl
@[simp] theorem Vec3.sub_x (v w : Vec3 F) : (v - w).x = v.x - w.x := rfl
@[simp] theorem Vec3.sub_y (v w : Vec3 F) : (v - w).y = v.y - w.y := rfl
@[simp] theorem Vec3.sub_z (v w : Vec3 F) : (v - w).z = v.z - w.z := rfl
@[simp] theorem Vec3.neg_x (v : Vec3 F) : (-v).x = -v.x := rfl
@[simp] theorem Vec3.neg_y (v : Vec3 F) : (-v).y = -v.y := rfl
@[simp] theorem Vec3.neg_z (v : Vec3 F) : (-v).z = -v.z := rfl
@[simp] theorem Vec3.mul_x (v w : Vec3 F) : (v * w).x = v.x * w.x := rfl
@[simp] theorem Vec3.mul_y (v w : Vec3 F) : (v * w).y = v.y * w.y := rfl
@[simp] theorem Vec3.mul_z (v w : Vec3 F) : (v * w).z = v.z * w.z := rfl
@[simp] theorem Vec3.scale_x (v : Vec3 F) (s : F) : (v.scale s).x = v.x * s := rfl
@[simp] theorem Vec3.scale_y (v : Vec3 F) (s : F) : (v.scale s).y = v.y * s := rfl
@[simp] theorem Vec3.scale_z (v : Vec3 F) (s : F) : (v.scale s).z = v.z * s := rfl

/-! ## Intersection of a ray with one sphere -/

/-- `RaySphere` written with the quadratic of the specification. -/
theorem RaySphere_unfold (ops : GlmOps F) (ray : Ray F) (sphere : Sphere F) :
    Renderer.RaySphere ops ray sphere =
      if 0 < discriminant ray sphere ∧ 0 ≤ smallerRoot ops ray sphere then
        { didHit := true
          dist := smallerRoot ops ray sphere
          hitPoint := ray.origin + ray.direction.scale (smallerRoot ops ray sphere)
          normal := normalize ops
            (ray.origin + ray.direction.scale (smallerRoot ops ray sphere) - sphere.position)
          materialID := sphere.materialID }
      else {} := by
  have hd : 2 * dot (ray.origin - sphere.position) ray.direction *
        (2 * dot (ray.origin - sphere.position) ray.direction) -
      4 * dot ray.direction ray.direction *
        (dot (ray.origin - sphere.position) (ray.origin - sphere.position) -
          sphere.radius * sphere.radius) = discriminant ray sphere := by
    simp only [discriminant, quadA, quadB, quadC]
    ring
  simp only [Renderer.RaySphere, hd, gt_iff_lt, ge_iff_le]
  by_cases h1 : 0 < discriminant ray sphere
  · by_cases h2 : 0 ≤ smallerRoot ops ray sphere
    · have h2' := h2
      simp only [smallerRoot, quadA, quadB] at h2'
      simp only [h1, h2, h2', and_self, if_true]
      simp only [smallerRoot, quadA, quadB]
    · have h2' := h2
      simp only [smallerRoot, quadA, quadB] at h2'
      simp only [h1, h2, h2', and_false, if_true, if_false]
  · simp only [h1, false_and, if_false]

/-- C1. `RaySphere` reports a hit exactly when the discriminant is positive and
the smaller root is non-negative; on a hit the record holds the root, the point
`origin + dir · t`, the normalised offset from the centre and the material of
the sphere; otherwise the flag is false and the distance is `FLT_MAX`. -/
theorem RaySphere_contract (ops : GlmOps F) (ray : Ray F) (sphere : Sphere F) :
    ((Renderer.RaySphere ops ray sphere).didHit = true ↔
        (0 < discriminant ray sphere ∧ 0 ≤ smallerRoot ops ray sphere)) ∧
    ((Renderer.RaySphere ops ray sphere).didHit = true →
        (Renderer.RaySphere ops ray sphere).dist = smallerRoot ops ray sphere ∧
        (Renderer.RaySphere ops ray sphere).hitPoint =
          ray.origin + ray.direction.scale (smallerRoot ops ray sphere) ∧
        (Renderer.RaySphere ops ray sphere).normal =
          normalize ops ((Renderer.RaySphere ops ray sphere).hitPoint - sphere.position) ∧
        (Renderer.RaySphere ops ray sphere).materialID = sphere.materialID) ∧
    ((Renderer.RaySphere ops ray sphere).didHit = false →
        (Renderer.RaySphere ops ray sphere).dist = FLT_MAX) := by
  rw [RaySphere_unfold]
  by_cases h : 0 < discriminant ray sphere ∧ 0 ≤ smallerRoot ops ray sphere
  · simp [h]
  · simp [h]

/-- A hit of `RaySphere` has a non-negative distance. -/
theorem RaySphere_dist_nonneg (ops : GlmOps F) (ray : Ray F) (sphere : Sphere F)
    (h : (Renderer.RaySphere ops ray sphere).didHit = true) :
    0 ≤ (Renderer.RaySphere ops ray sphere).dist := by
  rw [RaySphere_unfold] at h ⊢
  by_cases hc : 0 < discriminant ray sphere ∧ 0 ≤ smallerRoot ops ray sphere
  · simp [hc]
  · simp [hc] at h

/-- A hit of `RaySphere` carries the material of the sphere. -/
theorem RaySphere_materialID (ops : GlmOps F) (ray : Ray F) (sphere : Sphere F)
    (h : (Renderer.RaySphere ops ray sphere).didHit = true) :
    (Renderer.RaySphere ops ray sphere).materialID = sphere.materialID := by
  rw [RaySphere_unfold] at h ⊢
  by_cases hc : 0 < discriminant ray sphere ∧ 0 ≤ smallerRoot ops ray sphere
  · simp [hc]
  · simp [hc] at h

/-! ## Closest hit over the scene -/

/-- Invariant of the loop of `CalculateRayCollision`, for any starting record. -/
theorem collision_foldl (ops : GlmOps F) (ray : Ray F) (l : List (Sphere F)) :
    ∀ acc : HitInfo F,
      ((l.foldl (Renderer.collisionStep ops ray) acc).didHit = true ↔
        (acc.didHit = true ∨ ∃ s ∈ l, (Renderer.RaySphere ops ray s).didHit = true)) ∧
      (l.foldl (Renderer.collisionStep ops ray) acc = acc ∨
        ∃ s ∈ l, (Renderer.RaySphere ops ray s).didHit = true ∧
          l.foldl (Renderer.collisionStep ops ray) acc = Renderer.RaySphere ops ray s) ∧
      ((acc.didHit = true →
          (l.foldl (Renderer.collisionStep ops ray) acc).dist ≤ acc.dist) ∧
        ∀ s ∈ l, (Renderer.RaySphere ops ray s).didHit = true →
          (l.foldl (Renderer.collisionStep ops ray) acc).dist ≤
            (Renderer.RaySphere ops ray s).dist) := by
  induction l with
  | nil => intro acc; simp
  | cons s l ih =>
    intro acc
    simp only [List.foldl_cons, List.mem_cons, exists_eq_or_imp, forall_eq_or_imp]
    by_cases hstep : ((Renderer.RaySphere ops ray s).didHit &&
        (!acc.didHit || decide ((Renderer.RaySphere ops ray s).dist ≤ acc.dist))) = true
    · have hacc : Renderer.collisionStep ops ray acc s = Renderer.RaySphere ops ray s := by
        simp only [Renderer.collisionStep, hstep, if_true]
      obtain ⟨ih1, ih2, ih3, ih4⟩ := ih (Renderer.RaySphere ops ray s)
      rw [hacc]
      simp only [Bool.and_eq_true, Bool.or_eq_true, Bool.not_eq_true', decide_eq_true_eq] at hstep
      obtain ⟨hs, hle⟩ := hstep
      refine ⟨?_, ?_, ?_, ?_, ih4⟩
      · rw [ih1]; simp [hs]
      · rcases ih2 with h | ⟨t, ht, hth, hteq⟩
        · exact Or.inr (Or.inl ⟨hs, h⟩)
        · exact Or.inr (Or.inr ⟨t, ht, hth, hteq⟩)
      · intro hA
        rcases hle with hle | hle
        · rw [hA] at hle; exact absurd hle (by simp)
        · exact le_trans (ih3 hs) hle
      · intro _; exact ih3 hs
    · have hacc : Renderer.collisionStep ops ray acc s = acc := by
        simp only [Renderer.collisionStep, hstep, if_false]
        simp
      obtain ⟨ih1, ih2, ih3, ih4⟩ := ih acc
      rw [hacc]
      simp only [Bool.and_eq_true, Bool.or_eq_true, Bool.not_eq_true', decide_eq_true_eq,
        not_and, not_or] at hstep
      refine ⟨?_, ?_, ih3, ?_, ih4⟩
      · rw [ih1]
        constructor
        · rintro (h | h)
          · exact Or.inl h
          · exact Or.inr (Or.inr h)
        · rintro (h | h | h)
          · exact Or.inl h
          · have := (hstep h).1
            left
            cases hd : acc.didHit
            · exact absurd hd this
            · rfl
          · exact Or.inr h
      · rcases ih2 with h | ⟨t, ht, hth, hteq⟩
        · exact Or.inl h
        · exact Or.inr (Or.inr ⟨t, ht, hth, hteq⟩)
      · intro hs
        obtain ⟨h1, h2⟩ := hstep hs
        have hA : acc.didHit = true := by
          cases hd : acc.didHit
          · exact absurd hd h1
          · rfl
        exact le_trans (ih3 hA) (le_of_lt (lt_of_not_le h2))

/-- C2. `CalculateRayCollision` reports a hit exactly when some sphere of the
scene is hit; the record is then the `RaySphere` record of a sphere of the
list, its distance is non-negative and no hit sphere is closer. -/
theorem CalculateRayCollision_closest (ops : GlmOps F) (scene : Scene F) (ray : Ray F) :
    ((Renderer.CalculateRayCollision ops scene ray).didHit = true ↔
        ∃ s ∈ scene.spheres, (Renderer.RaySphere ops ray s).didHit = true) ∧
    ((Renderer.CalculateRayCollision ops scene ray).didHit = true →
        (∃ s ∈ scene.spheres,
          Renderer.CalculateRayCollision ops scene ray = Renderer.RaySphere ops ray s) ∧
        0 ≤ (Renderer.CalculateRayCollision ops scene ray).dist ∧
        ∀ s ∈ scene.spheres, (Renderer.RaySphere ops ray s).didHit = true →
          (Renderer.CalculateRayCollision ops scene ray).dist ≤
            (Renderer.RaySphere ops ray s).dist) := by
  obtain ⟨h1, h2, _, h4⟩ := collision_foldl ops ray scene.spheres {}
  have hiff : (Renderer.CalculateRayCollision ops scene ray).didHit = true ↔
      ∃ s ∈ scene.spheres, (Renderer.RaySphere ops ray s).didHit = true := by
    unfold Renderer.CalculateRayCollision
    rw [h1]
    simp
  refine ⟨hiff, fun hhit => ?_⟩
  unfold Renderer.CalculateRayCollision at hhit ⊢
  rcases h2 with h | ⟨t, ht, hth, hteq⟩
  · rw [h] at hhit
    simp at hhit
  · refine ⟨⟨t, ht, hteq⟩, ?_, h4⟩
    rw [hteq]
    exact RaySphere_dist_nonneg ops ray t hth

/-! ## Terminal cases of `TraceRayOnce` -/

/-- The first branch of `TraceRayOnce`: the depth bound. -/
theorem TraceRayOnceCounted_depth (ops : GlmOps F) (r : Renderer) (seedSrc : Nat → Nat)
    (scene : Scene F) (ray : Ray F) (dep : Nat) (h : r.m_MaxBounceCount ≤ dep) :
    Renderer.TraceRayOnceCounted ops r seedSrc scene ray dep =
      ⟨some (Renderer.GetSkyLight ops ray), 0, 0⟩ := by
  rw [Renderer.TraceRayOnceCounted]
  simp [h]

/-- The second branch of `TraceRayOnce`: no sphere is hit. -/
theorem TraceRayOnceCounted_miss (ops : GlmOps F) (r : Renderer) (seedSrc : Nat → Nat)
    (scene : Scene F) (ray : Ray F) (dep : Nat) (h : dep < r.m_MaxBounceCount)
    (hmiss : (Renderer.CalculateRayCollision ops scene ray).didHit = false) :
    Renderer.TraceRayOnceCounted ops r seedSrc scene ray dep =
      ⟨some (Renderer.GetSkyLight ops ray), 1, 0⟩ := by
  rw [Renderer.TraceRayOnceCounted]
  simp [Nat.not_le.mpr h, hmiss]

/-- A ray that misses every sphere has no closest hit. -/
theorem CalculateRayCollision_miss (ops : GlmOps F) (scene : Scene F) (ray : Ray F)
    (h : ∀ s ∈ scene.spheres, (Renderer.RaySphere ops ray s).didHit = false) :
    (Renderer.CalculateRayCollision ops scene ray).didHit = false := by
  have h1 := (collision_foldl ops ray scene.spheres {}).1
  cases hd : (Renderer.CalculateRayCollision ops scene ray).didHit
  · rfl
  · unfold Renderer.CalculateRayCollision at hd
    rcases h1.mp hd with h0 | ⟨s, hs, hhit⟩
    · simp at h0
    · rw [h s hs] at hhit
      exact absurd hhit (by simp)

/-- The sky colour reads only the direction of the ray. -/
theorem GetSkyLight_direction (ops : GlmOps F) (ray ray' : Ray F)
    (h : ray'.direction = ray.direction) :
    Renderer.GetSkyLight ops ray' = Renderer.GetSkyLight ops ray := by
  simp only [Renderer.GetSkyLight, h]

/-- C3. At a depth that reached `m_MaxBounceCount`, or for a ray that misses
every sphere of the scene (`CalculateRayCollision` then reports no hit),
`TraceRayOnce` returns `GetSkyLight ray`, a function of the direction of the
ray alone. -/
theorem TraceRayOnce_sky (ops : GlmOps F) (r : Renderer) (seedSrc : Nat → Nat)
    (scene : Scene F) (ray : Ray F) (dep : Nat)
    (h : r.m_MaxBounceCount ≤ dep ∨
      ∀ s ∈ scene.spheres, (Renderer.RaySphere ops ray s).didHit = false) :
    Renderer.TraceRayOnce ops r seedSrc scene ray dep = some (Renderer.GetSkyLight ops ray) ∧
    ((∀ s ∈ scene.spheres, (Renderer.RaySphere ops ray s).didHit = false) →
      (Renderer.CalculateRayCollision ops scene ray).didHit = false) ∧
    ∀ ray' : Ray F, ray'.direction = ray.direction →
      Renderer.GetSkyLight ops ray' = Renderer.GetSkyLight ops ray := by
  refine ⟨?_, CalculateRayCollision_miss ops scene ray, GetSkyLight_direction ops ray⟩
  unfold Renderer.TraceRayOnce
  by_cases hdep : r.m_MaxBounceCount ≤ dep
  · rw [TraceRayOnceCounted_depth ops r seedSrc scene ray dep hdep]
  · rcases h with h | h
    · exact absurd h hdep
    · rw [TraceRayOnceCounted_miss ops r seedSrc scene ray dep (Nat.lt_of_not_le hdep)
        (CalculateRayCollision_miss ops scene ray h)]

/-- `missRay` does not hit `unitSphere`. -/
theorem missRay_misses :
    ∀ s ∈ unitScene.spheres, (Renderer.RaySphere ratOps missRay s).didHit = false := by
  intro s hs
  simp only [unitScene, List.mem_singleton] at hs
  subst hs
  rw [RaySphere_unfold]
  norm_num [discriminant, quadA, quadB, quadC, missRay, unitSphere, dot]

/-- Witness of C3: depth `0` of two bounces, a ray that passes beside the only
sphere of the scene. -/
theorem TraceRayOnce_sky_witness :
    (∀ s ∈ unitScene.spheres, (Renderer.RaySphere ratOps missRay s).didHit = false) ∧
    Renderer.TraceRayOnce ratOps {} (fun _ => 7) unitScene missRay 0 =
      some (Renderer.GetSkyLight ratOps missRay) :=
  ⟨missRay_misses,
    (TraceRayOnce_sky ratOps {} (fun _ => 7) unitScene missRay 0 (Or.inr missRay_misses)).1⟩

/-! ## A ray that points at the centre of a sphere -/

/-- The square root of `ratOps` is exact on squares. -/
theorem ratOps_sqrt_mul_self (q : ℚ) (h : 0 ≤ q) : ratOps.sqrt (q * q) = q := by
  simp [ratOps, Rat.sqrt_eq, abs_of_nonneg h]

/-- The quadratic of a ray that points at the centre of the sphere. -/
theorem towards_centre_quadratic (ops : GlmOps F) (ray : Ray F) (sphere : Sphere F) (k : F)
    (hsqrt : ∀ x : F, 0 ≤ x → ops.sqrt (x * x) = x)
    (hlen : length ops (ray.origin - sphere.position) *
        length ops (ray.origin - sphere.position) =
      dot (ray.origin - sphere.position) (ray.origin - sphere.position))
    (hr : 0 < sphere.radius)
    (hout : sphere.radius < length ops (ray.origin - sphere.position))
    (hk : 0 < k) (hdir : ray.direction = (sphere.position - ray.origin).scale k) :
    0 < discriminant ray sphere ∧
    length ops ray.direction = k * length ops (ray.origin - sphere.position) ∧
    smallerRoot ops ray sphere =
      (length ops (ray.origin - sphere.position) - sphere.radius) /
        (k * length ops (ray.origin - sphere.position)) := by
  have hL : 0 < length ops (ray.origin - sphere.position) := lt_trans hr hout
  have e1 : dot ray.direction ray.direction =
      k * k * dot (ray.origin - sphere.position) (ray.origin - sphere.position) := by
    rw [hdir]
    simp only [dot, Vec3.scale_x, Vec3.scale_y, Vec3.scale_z, Vec3.sub_x, Vec3.sub_y, Vec3.sub_z]
    ring
  have e2 : dot (ray.origin - sphere.position) ray.direction =
      -k * dot (ray.origin - sphere.position) (ray.origin - sphere.position) := by
    rw [hdir]
    simp only [dot, Vec3.scale_x, Vec3.scale_y, Vec3.scale_z, Vec3.sub_x, Vec3.sub_y, Vec3.sub_z]
    ring
  have hdisc : discriminant ray sphere =
      (2 * k * length ops (ray.origin - sphere.position) * sphere.radius) *
        (2 * k * length ops (ray.origin - sphere.position) * sphere.radius) := by
    simp only [discriminant, quadA, quadB, quadC, e1, e2, ← hlen]
    ring
  have hnn : 0 ≤ 2 * k * length ops (ray.origin - sphere.position) * sphere.radius := by
    positivity
  have hlendir : length ops ray.direction = k * length ops (ray.origin - sphere.position) := by
    have : dot ray.direction ray.direction =
        (k * length ops (ray.origin - sphere.position)) *
          (k * length ops (ray.origin - sphere.position)) := by
      rw [e1, ← hlen]; ring
    rw [length, this]
    exact hsqrt _ (by positivity)
  refine ⟨?_, hlendir, ?_⟩
  · rw [hdisc]; positivity
  · rw [smallerRoot, hdisc, hsqrt _ hnn]
    simp only [quadA, quadB, e1, e2, ← hlen]
    field_simp
    ring

/-- Counterexample to C4 as stated: the ray from `(0, 0, 5)` with direction
`(0, 0, -2)` points at the centre of the unit sphere, which lies at distance
`5`; the recorded distance is `2`, while `|origin − c| − r` is `4`. -/
theorem RaySphere_dist_counterexample :
    0 < unitSphere.radius ∧
    unitSphere.radius < length ratOps (towardsRay.origin - unitSphere.position) ∧
    towardsRay.direction = (unitSphere.position - towardsRay.origin).scale (2 / 5) ∧
    (Renderer.RaySphere ratOps towardsRay unitSphere).didHit = true ∧
    (Renderer.RaySphere ratOps towardsRay unitSphere).dist = 2 ∧
    length ratOps (towardsRay.origin - unitSphere.position) - unitSphere.radius = 4 ∧
    (Renderer.RaySphere ratOps towardsRay unitSphere).dist ≠
      length ratOps (towardsRay.origin - unitSphere.position) - unitSphere.radius := by
  have h25 : ratOps.sqrt 25 = 5 := by
    have h := ratOps_sqrt_mul_self 5 (by norm_num)
    norm_num at h
    exact h
  have h16 : ratOps.sqrt 16 = 4 := by
    have h := ratOps_sqrt_mul_self 4 (by norm_num)
    norm_num at h
    exact h
  have hlen : length ratOps (towardsRay.origin - unitSphere.position) = 5 := by
    norm_num [length, dot, towardsRay, unitSphere, h25]
  have hd : discriminant towardsRay unitSphere = 16 := by
    norm_num [discriminant, quadA, quadB, quadC, dot, towardsRay, unitSphere]
  have ht : smallerRoot ratOps towardsRay unitSphere = 2 := by
    rw [smallerRoot, hd, h16]
    norm_num [quadA, quadB, dot, towardsRay, unitSphere]
  have hhit : (Renderer.RaySphere ratOps towardsRay unitSphere).didHit = true := by
    rw [RaySphere_unfold, hd, ht]
    norm_num
  have hdist : (Renderer.RaySphere ratOps towardsRay unitSphere).dist = 2 := by
    rw [RaySphere_unfold, hd, ht]
    norm_num
  rw [hlen, hdist]
  refine ⟨by norm_num [unitSphere], by norm_num [unitSphere], ?_, hhit, rfl, ?_, ?_⟩
  · ext <;> norm_num [towardsRay, unitSphere]
  · norm_num [unitSphere]
  · norm_num [unitSphere]

/-- C4, amended. For a sphere of radius `r > 0` and a ray whose origin lies
outside it and whose direction is a positive multiple of `c − origin`,
`RaySphere` reports a hit whose distance is `(|origin − c| − r) / |dir|`, which
is `|origin − c| − r` when the direction has length one, and whose normal is
`normalize (hitPoint − c)`.  The square root is assumed exact on squares and at
`|origin − c|²`. -/
theorem RaySphere_towards_centre (ops : GlmOps F) (ray : Ray F) (sphere : Sphere F) (k : F)
    (hsqrt : ∀ x : F, 0 ≤ x → ops.sqrt (x * x) = x)
    (hlen : length ops (ray.origin - sphere.position) *
        length ops (ray.origin - sphere.position) =
      dot (ray.origin - sphere.position) (ray.origin - sphere.position))
    (hr : 0 < sphere.radius)
    (hout : sphere.radius < length ops (ray.origin - sphere.position))
    (hk : 0 < k) (hdir : ray.direction = (sphere.position - ray.origin).scale k) :
    (Renderer.RaySphere ops ray sphere).didHit = true ∧
    (Renderer.RaySphere ops ray sphere).dist =
      (length ops (ray.origin - sphere.position) - sphere.radius) /
        length ops ray.direction ∧
    (length ops ray.direction = 1 →
      (Renderer.RaySphere ops ray sphere).dist =
        length ops (ray.origin - sphere.position) - sphere.radius) ∧
    (Renderer.RaySphere ops ray sphere).normal =
      normalize ops ((Renderer.RaySphere ops ray sphere).hitPoint - sphere.position) := by
  obtain ⟨hd, hl, ht⟩ := towards_centre_quadratic ops ray sphere k hsqrt hlen hr hout hk hdir
  have hL : 0 < length ops (ray.origin - sphere.position) := lt_trans hr hout
  have hroot : 0 ≤ smallerRoot ops ray sphere := by
    rw [ht]
    exact div_nonneg (sub_nonneg.mpr (le_of_lt hout)) (le_of_lt (mul_pos hk hL))
  have hdist : (Renderer.RaySphere ops ray sphere).dist =
      (length ops (ray.origin - sphere.position) - sphere.radius) /
        length ops ray.direction := by
    rw [RaySphere_unfold, hl, ← ht]
    simp [hd, hroot]
  refine ⟨?_, hdist, ?_, ?_⟩
  · rw [RaySphere_unfold]
    simp [hd, hroot]
  · intro h1
    rw [hdist, h1, div_one]
  · rw [RaySphere_unfold]
    simp [hd, hroot]

/-- Witness of C4: `towardsRay` and `unitSphere`, with `k = 2 / 5`. -/
theorem RaySphere_towards_centre_witness :
    (Renderer.RaySphere ratOps towardsRay unitSphere).dist =
      (length ratOps (towardsRay.origin - unitSphere.position) - unitSphere.radius) /
        length ratOps towardsRay.direction := by
  have h25 : ratOps.sqrt 25 = 5 := by
    have h := ratOps_sqrt_mul_self 5 (by norm_num)
    norm_num at h
    exact h
  have hlen : length ratOps (towardsRay.origin - unitSphere.position) = 5 := by
    norm_num [length, dot, towardsRay, unitSphere, h25]
  refine (RaySphere_towards_centre ratOps towardsRay unitSphere (2 / 5)
    ratOps_sqrt_mul_self ?_ ?_ ?_ ?_ ?_).2.1
  · rw [hlen]
    norm_num [dot, towardsRay, unitSphere]
  · norm_num [unitSphere]
  · rw [hlen]
    norm_num [unitSphere]
  · norm_num
  · ext <;> norm_num [towardsRay, unitSphere]

/-! ## Quantisation of colours -/

/-- Four bytes packed with shifts and bitwise or are the digits in base 256. -/
theorem pack_bytes (a b g r : Nat) (ha : a < 256) (hb : b < 256) (hg : g < 256)
    (hr : r < 256) :
    ((a <<< 24) ||| (b <<< 16) ||| (g <<< 8) ||| r) % 4294967296 =
      r + 256 * g + 65536 * b + 16777216 * a := by
  have h1 : (a <<< 24) ||| (b <<< 16) = 2 ^ 24 * a + b * 2 ^ 16 := by
    rw [Nat.shiftLeft_eq, Nat.shiftLeft_eq, Nat.mul_comm a (2 ^ 24)]
    exact (Nat.mul_add_lt_is_or (by omega) a).symm
  have h2 : (2 ^ 24 * a + b * 2 ^ 16) ||| (g <<< 8) = 2 ^ 16 * (2 ^ 8 * a + b) + g * 2 ^ 8 := by
    rw [Nat.shiftLeft_eq, show 2 ^ 24 * a + b * 2 ^ 16 = 2 ^ 16 * (2 ^ 8 * a + b) by ring]
    exact (Nat.mul_add_lt_is_or (by omega) _).symm
  have h3 : (2 ^ 16 * (2 ^ 8 * a + b) + g * 2 ^ 8) ||| r =
      2 ^ 8 * (2 ^ 8 * (2 ^ 8 * a + b) + g) + r := by
    rw [show 2 ^ 16 * (2 ^ 8 * a + b) + g * 2 ^ 8 = 2 ^ 8 * (2 ^ 8 * (2 ^ 8 * a + b) + g) by ring]
    exact (Nat.mul_add_lt_is_or (by omega) _).symm
  rw [h1, h2, h3]
  omega

/-- A channel in `[0, 1]` is cast to the integer part of `255` times its value. -/
theorem toUInt8_channel [FloorRing F] (c : F) (h0 : 0 ≤ c) (h1 : c ≤ 1) :
    Utils.toUInt8 (c * 255) = Int.toNat ⌊255 * c⌋ ∧ Int.toNat ⌊255 * c⌋ ≤ 255 := by
  have hle : ⌊255 * c⌋ ≤ 255 := by
    have : (255 : F) * c ≤ ((255 : ℤ) : F) := by
      push_cast
      nlinarith
    have h2 := Int.floor_le_floor this
    rwa [Int.floor_intCast] at h2
  have hnn : 0 ≤ ⌊255 * c⌋ := Int.floor_nonneg.mpr (by positivity)
  have hb : Int.toNat ⌊255 * c⌋ ≤ 255 := by omega
  refine ⟨?_, hb⟩
  rw [Utils.toUInt8, mul_comm c 255]
  omega

/-- The cast to `uint8_t` yields a byte. -/
theorem toUInt8_lt [FloorRing F] (c : F) : Utils.toUInt8 c < 256 := by
  unfold Utils.toUInt8
  omega

/-- An opaque colour is packed with alpha byte `255`, whatever its other
channels are. -/
theorem ConvertToRGBA_alpha_byte [FloorRing F] (color : Vec4 F) (hw : color.w = 1) :
    Utils.ConvertToRGBA color < 4294967296 ∧ Utils.ConvertToRGBA color / 16777216 = 255 := by
  have ha : Utils.toUInt8 (color.w * 255) = 255 := by
    rw [hw, one_mul, Utils.toUInt8]
    have h255 : ⌊(255 : F)⌋ = 255 := by simp
    rw [h255]
    rfl
  have h := pack_bytes (Utils.toUInt8 (color.w * 255)) (Utils.toUInt8 (color.z * 255))
    (Utils.toUInt8 (color.y * 255)) (Utils.toUInt8 (color.x * 255)) (toUInt8_lt _) (toUInt8_lt _)
    (toUInt8_lt _) (toUInt8_lt _)
  have hx := toUInt8_lt (color.x * 255)
  have hy := toUInt8_lt (color.y * 255)
  have hz := toUInt8_lt (color.z * 255)
  simp only [Utils.ConvertToRGBA]
  rw [h, ha]
  omega

/-- The colour that `TraceRay` returns has its channels in `[0, 1]`. -/
theorem TraceRay_clamped (ops : GlmOps F) (r : Renderer) (seedSrc : Nat → Nat → Nat)
    (scene : Scene F) (ray : Ray F) (c : Vec3 F)
    (h : Renderer.TraceRay ops r seedSrc scene ray = some c) :
    (0 ≤ c.x ∧ c.x ≤ 1) ∧ (0 ≤ c.y ∧ c.y ≤ 1) ∧ (0 ≤ c.z ∧ c.z ≤ 1) := by
  unfold Renderer.TraceRay at h
  split at h
  · exact absurd h (by simp)
  · simp only [Option.map_eq_some'] at h
    obtain ⟨t, _, ht⟩ := h
    subst ht
    simp [clampVec3, clamp]

/-- The colour that `PerPixel` returns is opaque with channels in `[0, 1]`. -/
theorem PerPixel_alpha_one (ops : GlmOps F) (r : Renderer) (seedSrc : Nat → Nat → Nat)
    (scene : Scene F) (camera : Camera F) (x y : Nat) (c : Vec4 F)
    (h : Renderer.PerPixel ops r seedSrc scene camera x y = some c) :
    (0 ≤ c.x ∧ c.x ≤ 1) ∧ (0 ≤ c.y ∧ c.y ≤ 1) ∧ (0 ≤ c.z ∧ c.z ≤ 1) ∧ c.w = 1 := by
  simp only [Renderer.PerPixel] at h
  split at h
  · exact absurd h (by simp)
  · rename_i direction _
    simp only [Option.map_eq_some'] at h
    obtain ⟨t, ht, hc⟩ := h
    subst hc
    obtain ⟨h1, h2, h3⟩ := TraceRay_clamped ops r seedSrc scene _ t ht
    exact ⟨h1, h2, h3, rfl⟩

/-- C5. A colour with channels in `[0, 1]` is packed into the word whose bytes,
from the least significant one, are the integer parts of `255 r`, `255 g`,
`255 b` and `255 a`, each at most `255`; every colour that `PerPixel` returns
is opaque with channels in `[0, 1]`, and every word that `Render` stores has
alpha byte `255`. -/
theorem ConvertToRGBA_packed [FloorRing F] (color : Vec4 F)
    (hr : 0 ≤ color.x ∧ color.x ≤ 1) (hg : 0 ≤ color.y ∧ color.y ≤ 1)
    (hb : 0 ≤ color.z ∧ color.z ≤ 1) (ha : 0 ≤ color.w ∧ color.w ≤ 1) :
    Utils.ConvertToRGBA color =
      Int.toNat ⌊255 * color.x⌋ + 256 * Int.toNat ⌊255 * color.y⌋ +
        65536 * Int.toNat ⌊255 * color.z⌋ + 16777216 * Int.toNat ⌊255 * color.w⌋ ∧
    (Int.toNat ⌊255 * color.x⌋ ≤ 255 ∧ Int.toNat ⌊255 * color.y⌋ ≤ 255 ∧
      Int.toNat ⌊255 * color.z⌋ ≤ 255 ∧ Int.toNat ⌊255 * color.w⌋ ≤ 255) ∧
    (Utils.ConvertToRGBA color % 256 = Int.toNat ⌊255 * color.x⌋ ∧
      Utils.ConvertToRGBA color / 256 % 256 = Int.toNat ⌊255 * color.y⌋ ∧
      Utils.ConvertToRGBA color / 65536 % 256 = Int.toNat ⌊255 * color.z⌋ ∧
      Utils.ConvertToRGBA color / 16777216 % 256 = Int.toNat ⌊255 * color.w⌋) ∧
    (∀ (ops : GlmOps F) (r : Renderer) (seedSrc : Nat → Nat → Nat) (scene : Scene F)
        (camera : Camera F) (x y : Nat) (c : Vec4 F),
      Renderer.PerPixel ops r seedSrc scene camera x y = some c →
        (0 ≤ c.x ∧ c.x ≤ 1) ∧ (0 ≤ c.y ∧ c.y ≤ 1) ∧ (0 ≤ c.z ∧ c.z ≤ 1) ∧ c.w = 1) ∧
    (∀ (ops : GlmOps F) (r : Renderer) (seedSrc : Nat → Nat → Nat → Nat → Nat)
        (scene : Scene F) (camera : Camera F) (x y idx word : Nat),
      Renderer.renderPixel ops r seedSrc scene camera x y = some (idx, word) →
        word < 4294967296 ∧ word / 16777216 = 255) := by
  obtain ⟨ex, bx⟩ := toUInt8_channel color.x hr.1 hr.2
  obtain ⟨ey, bY⟩ := toUInt8_channel color.y hg.1 hg.2
  obtain ⟨ez, bz⟩ := toUInt8_channel color.z hb.1 hb.2
  obtain ⟨ew, bw⟩ := toUInt8_channel color.w ha.1 ha.2
  have hpack : Utils.ConvertToRGBA color =
      Int.toNat ⌊255 * color.x⌋ + 256 * Int.toNat ⌊255 * color.y⌋ +
        65536 * Int.toNat ⌊255 * color.z⌋ + 16777216 * Int.toNat ⌊255 * color.w⌋ := by
    simp only [Utils.ConvertToRGBA]
    rw [ex, ey, ez, ew]
    exact pack_bytes _ _ _ _ (by omega) (by omega) (by omega) (by omega)
  refine ⟨hpack, ⟨bx, bY, bz, bw⟩, ?_, ?_, ?_⟩
  · rw [hpack]
    omega
  · intro ops r seedSrc scene camera x y c h
    exact PerPixel_alpha_one ops r seedSrc scene camera x y c h
  · intro ops r seedSrc scene camera x y idx word h
    simp only [Renderer.renderPixel, Option.map_eq_some', Prod.mk.injEq] at h
    obtain ⟨c, hc, _, hword⟩ := h
    rw [← hword]
    exact ConvertToRGBA_alpha_byte c (PerPixel_alpha_one ops r (seedSrc x y) scene camera x y c hc).2.2.2

/-- Witness of C5: the colour `(1, 1/2, 1/4, 1)`. -/
theorem ConvertToRGBA_packed_witness :
    Utils.ConvertToRGBA sampleColor =
      Int.toNat ⌊255 * sampleColor.x⌋ + 256 * Int.toNat ⌊255 * sampleColor.y⌋ +
        65536 * Int.toNat ⌊255 * sampleColor.z⌋ + 16777216 * Int.toNat ⌊255 * sampleColor.w⌋ :=
  (ConvertToRGBA_packed sampleColor (by norm_num [sampleColor]) (by norm_num [sampleColor])
    (by norm_num [sampleColor]) (by norm_num [sampleColor])).1

/-! ## Pseudo random numbers -/

/-- The hash is a 32 bit word. -/
theorem PCG_Hash_lt (input : Nat) : Utils.PCG_Hash input < 4294967296 := by
  unfold Utils.PCG_Hash
  have hw : ∀ w : Nat, w < 2 ^ 32 → (w >>> 22) ^^^ w < 2 ^ 32 := by
    intro w h
    apply Nat.xor_lt_two_pow _ h
    rw [Nat.shiftRight_eq_div_pow]
    exact lt_of_le_of_lt (Nat.div_le_self _ _) h
  exact hw _ (Nat.mod_lt _ (by norm_num))

/-- The divisor of `RandomFloat` is `2 ^ 32`. -/
theorem randomFloatDivisor_eq : Utils.randomFloatDivisor = 4294967296 := by decide

/-- What `RandomFloat` and `RandomVec3` compute from a seed: the new seed is the
hash of the old one, the value is the `float` nearest to the new seed divided
by `2 ^ 32`, and `RandomVec3` leaves the seed hashed three times. -/
theorem RandomFloat_value (seed : Nat) (lo hi : F) :
    (Utils.RandomFloat seed : F × Nat).2 = Utils.PCG_Hash seed ∧
    (Utils.RandomFloat seed : F × Nat).1 =
      (Utils.roundToFloat (Utils.PCG_Hash seed) : F) / 4294967296 ∧
    (Utils.RandomVec3 seed lo hi).2 =
      Utils.PCG_Hash (Utils.PCG_Hash (Utils.PCG_Hash seed)) := by
  refine ⟨rfl, ?_, rfl⟩
  simp only [Utils.RandomFloat, randomFloatDivisor_eq]
  norm_num

/-- C6, at the seed `2222045655`: its hash is `2 ^ 32 - 1`, the conversion to
`float` rounds that to `2 ^ 32`, and `RandomFloat` returns `1`. -/
theorem RandomFloat_returns_one :
    Utils.PCG_Hash 2222045655 = 4294967295 ∧
    Utils.roundToFloat 4294967295 = 4294967296 ∧
    (Utils.RandomFloat 2222045655 : ℚ × ℕ) = (1, 4294967295) := by
  have h1 : Utils.PCG_Hash 2222045655 = 4294967295 := by decide
  have h2 : Utils.roundToFloat 4294967295 = 4294967296 := by decide
  refine ⟨h1, h2, ?_⟩
  simp only [Utils.RandomFloat, randomFloatDivisor_eq, h1, h2]
  norm_num

/-! ## Camera resize -/

/-- A loop over a list whose body succeeds on every state that satisfies `P`,
and keeps `P`, succeeds and keeps `P`. -/
theorem foldl_some {α β : Type} (l : List β) (G : Option α → β → Option α) (P : α → Prop)
    (hstep : ∀ a b, b ∈ l → P a → ∃ a', G (some a) b = some a' ∧ P a') :
    ∀ init, P init → ∃ a', l.foldl G (some init) = some a' ∧ P a' := by
  induction l with
  | nil => intro init h; exact ⟨init, rfl, h⟩
  | cons b l ih =>
    intro init h
    obtain ⟨a', ha', hP⟩ := hstep init b (List.mem_cons_self b l) h
    rw [List.foldl_cons, ha']
    exact ih (fun a c hc hPa => hstep a c (List.mem_cons_of_mem b hc) hPa) a' hP

/-- The resized table has the requested length. -/
theorem resizeTable_length (table : List (Vec3 F)) (n : Nat) :
    (Camera.resizeTable table n).length = n := by
  simp only [Camera.resizeTable, List.length_append, List.length_take, List.length_replicate]
  omega

/-- Without overflow of `width * height`, every write of
`RecalculateRayDirections` falls inside the table: the function returns, and
the table has `width * height` entries. -/
theorem RecalculateRayDirections_some (ops : GlmOps F) (cam : Camera F)
    (h : cam.m_ViewportWidth * cam.m_ViewportHeight < 4294967296) :
    ∃ t, Camera.RecalculateRayDirections ops cam = some { cam with m_RayDirections := t } ∧
      t.length = cam.m_ViewportWidth * cam.m_ViewportHeight := by
  have hlen := resizeTable_length cam.m_RayDirections
    ((cam.m_ViewportWidth * cam.m_ViewportHeight) % 4294967296)
  rw [Nat.mod_eq_of_lt h] at hlen
  obtain ⟨t, ht, hP⟩ := foldl_some (List.range cam.m_ViewportHeight)
    (fun acc y => (List.range cam.m_ViewportWidth).foldl
      (fun acc x => acc.bind (fun t =>
        writeAt t ((x + y * cam.m_ViewportWidth) % 4294967296)
          (Camera.rayDirection ops cam x y)))
      acc)
    (fun t => t.length = cam.m_ViewportWidth * cam.m_ViewportHeight)
    (fun a y hy hPa => foldl_some (List.range cam.m_ViewportWidth)
      (fun acc x => acc.bind (fun t =>
        writeAt t ((x + y * cam.m_ViewportWidth) % 4294967296)
          (Camera.rayDirection ops cam x y)))
      (fun t => t.length = cam.m_ViewportWidth * cam.m_ViewportHeight)
      (fun a' x hx hPa' => by
        have hx' := List.mem_range.mp hx
        have hy' := List.mem_range.mp hy
        have hidx : x + y * cam.m_ViewportWidth <
            cam.m_ViewportWidth * cam.m_ViewportHeight := by
          calc x + y * cam.m_ViewportWidth
              < cam.m_ViewportWidth + y * cam.m_ViewportWidth := by omega
            _ = cam.m_ViewportWidth * (y + 1) := by ring
            _ ≤ cam.m_ViewportWidth * cam.m_ViewportHeight :=
              Nat.mul_le_mul_left _ hy'
        have hmod : (x + y * cam.m_ViewportWidth) % 4294967296 <
            cam.m_ViewportWidth * cam.m_ViewportHeight :=
          lt_of_le_of_lt (Nat.mod_le _ _) hidx
        refine ⟨a'.set ((x + y * cam.m_ViewportWidth) % 4294967296)
          (Camera.rayDirection ops cam x y), ?_, ?_⟩
        · simp only [Option.bind, writeAt, hPa', hmod, if_true]
        · simpa using hPa')
      a hPa)
    _ hlen
  refine ⟨t, ?_, hP⟩
  simp only [Camera.RecalculateRayDirections]
  rw [Nat.mod_eq_of_lt h, ht]
  rfl

/-- The camera that `RecalculateRayDirections` returns differs from its
argument in the ray table only. -/
theorem RecalculateRayDirections_fields (ops : GlmOps F) (cam cam' : Camera F)
    (h : Camera.RecalculateRayDirections ops cam = some cam') :
    cam'.m_ViewportWidth = cam.m_ViewportWidth ∧
      cam'.m_ViewportHeight = cam.m_ViewportHeight := by
  simp only [Camera.RecalculateRayDirections, Option.map_eq_some'] at h
  obtain ⟨t, _, ht⟩ := h
  subst ht
  exact ⟨rfl, rfl⟩

/-- After `OnResize (width, height)` the viewport has that size. -/
theorem OnResize_viewport (ops : GlmOps F) (cops : CameraOps F) (cam cam' : Camera F)
    (width height : Nat) (h : Camera.OnResize ops cops cam width height = some cam') :
    width = cam'.m_ViewportWidth ∧ height = cam'.m_ViewportHeight := by
  unfold Camera.OnResize at h
  split at h
  · rename_i hsame
    simp only [Option.some.injEq] at h
    subst h
    exact hsame
  · obtain ⟨h1, h2⟩ := RecalculateRayDirections_fields ops _ cam' h
    simp only [Camera.RecalculateProjection] at h1 h2
    exact ⟨h1.symm, h2.symm⟩

/-- C7. `OnResize` with the size that the viewport already has returns the
camera unchanged: no member is recomputed.  Hence a second `OnResize` with the
same size changes nothing, and two calls in a row yield what one call yields.
Without overflow of `width * height` the call returns. -/
theorem OnResize_idempotent (ops : GlmOps F) (cops : CameraOps F) (cam : Camera F)
    (width height : Nat) :
    ((width = cam.m_ViewportWidth ∧ height = cam.m_ViewportHeight) →
      Camera.OnResize ops cops cam width height = some cam) ∧
    (∀ cam', Camera.OnResize ops cops cam width height = some cam' →
      Camera.OnResize ops cops cam' width height = some cam') ∧
    (Camera.OnResize ops cops cam width height).bind
        (fun c => Camera.OnResize ops cops c width height) =
      Camera.OnResize ops cops cam width height ∧
    (width * height < 4294967296 →
      ∃ cam', Camera.OnResize ops cops cam width height = some cam') := by
  have hsame : ∀ c : Camera F, (width = c.m_ViewportWidth ∧ height = c.m_ViewportHeight) →
      Camera.OnResize ops cops c width height = some c := by
    intro c hc
    simp only [Camera.OnResize, hc, and_self, if_true]
  have hsecond : ∀ cam', Camera.OnResize ops cops cam width height = some cam' →
      Camera.OnResize ops cops cam' width height = some cam' :=
    fun cam' h => hsame cam' (OnResize_viewport ops cops cam cam' width height h)
  refine ⟨hsame cam, hsecond, ?_, ?_⟩
  · cases hres : Camera.OnResize ops cops cam width height with
    | none => rfl
    | some cam' => exact hsecond cam' hres
  · intro hsize
    by_cases hc : width = cam.m_ViewportWidth ∧ height = cam.m_ViewportHeight
    · exact ⟨cam, hsame cam hc⟩
    · obtain ⟨t, ht, _⟩ := RecalculateRayDirections_some ops
        (Camera.RecalculateProjection cops
          { cam with m_ViewportWidth := width, m_ViewportHeight := height }) hsize
      have hres : Camera.OnResize ops cops cam width height =
          Camera.RecalculateRayDirections ops (Camera.RecalculateProjection cops
            { cam with m_ViewportWidth := width, m_ViewportHeight := height }) := by
        simp only [Camera.OnResize, hc, if_false]
      rw [hres, ht]
      exact ⟨_, rfl⟩

/-! ## One step of `TraceRayOnce` at a hit -/

/-- With a light of intensity zero, the direct term is black. -/
theorem CalculateDirectLight_unlit (ops : GlmOps F) (r : Renderer) (scene : Scene F)
    (hitInfo : HitInfo F) (ray : Ray F) (mat : Material F)
    (hmat : scene.GetMaterial hitInfo.materialID = some mat)
    (hlight : scene.directionalLight.intensity = 0) :
    Renderer.CalculateDirectLight ops r scene hitInfo ray = some ⟨0, 0, 0⟩ := by
  simp only [Renderer.CalculateDirectLight, hmat, hlight]
  split
  · congr 1
    ext <;> simp
  · congr 1
    ext <;> simp

/-- With a material that exists, the direct term has a value. -/
theorem CalculateDirectLight_some (ops : GlmOps F) (r : Renderer) (scene : Scene F)
    (hitInfo : HitInfo F) (ray : Ray F) (mat : Material F)
    (hmat : scene.GetMaterial hitInfo.materialID = some mat) :
    ∃ c, Renderer.CalculateDirectLight ops r scene hitInfo ray = some c := by
  simp only [Renderer.CalculateDirectLight, hmat]
  split
  · exact ⟨_, rfl⟩
  · exact ⟨_, rfl⟩

/-- The third branch of `TraceRayOnce`: a hit below the depth bound. -/
theorem TraceRayOnceCounted_hit (ops : GlmOps F) (r : Renderer) (seedSrc : Nat → Nat)
    (scene : Scene F) (ray : Ray F) (dep : Nat) (mat : Material F) (directColor : Vec3 F)
    (hdep : dep < r.m_MaxBounceCount)
    (hhit : (Renderer.CalculateRayCollision ops scene ray).didHit = true)
    (hmat : scene.GetMaterial (Renderer.CalculateRayCollision ops scene ray).materialID =
      some mat)
    (hdirect : Renderer.CalculateDirectLight ops r scene
      (Renderer.CalculateRayCollision ops scene ray) ray = some directColor) :
    Renderer.TraceRayOnceCounted ops r seedSrc scene ray dep =
      ⟨(Renderer.TraceRayOnceCounted ops r seedSrc scene
          (Renderer.bounceRay ops mat (seedSrc dep % 4294967296)
            (Renderer.CalculateRayCollision ops scene ray) ray) (dep + 1)).color.map
          (Renderer.compose ops mat (Renderer.CalculateRayCollision ops scene ray) ray
            directColor),
        1 + (Renderer.TraceRayOnceCounted ops r seedSrc scene
          (Renderer.bounceRay ops mat (seedSrc dep % 4294967296)
            (Renderer.CalculateRayCollision ops scene ray) ray) (dep + 1)).intersections,
        1 + (Renderer.TraceRayOnceCounted ops r seedSrc scene
          (Renderer.bounceRay ops mat (seedSrc dep % 4294967296)
            (Renderer.CalculateRayCollision ops scene ray) ray) (dep + 1)).bounces⟩ := by
  have hmod : (dep + 1) % 4294967296 = dep + 1 := by
    have := r.maxBounceCount_lt
    omega
  rw [Renderer.TraceRayOnceCounted]
  simp only [Nat.not_le.mpr hdep, hhit, hmat, hdirect, hmod]
  simp

/-- The material of a closest hit is the material of a sphere of the scene. -/
theorem CalculateRayCollision_materialID (ops : GlmOps F) (scene : Scene F) (ray : Ray F)
    (hhit : (Renderer.CalculateRayCollision ops scene ray).didHit = true) :
    ∃ s ∈ scene.spheres,
      (Renderer.CalculateRayCollision ops scene ray).materialID = s.materialID := by
  unfold Renderer.CalculateRayCollision at hhit ⊢
  rcases (collision_foldl ops ray scene.spheres {}).2.1 with h | ⟨s, hs, hsh, heq⟩
  · rw [h] at hhit
    simp at hhit
  · exact ⟨s, hs, by rw [heq]; exact RaySphere_materialID ops ray s hsh⟩

/-- When every sphere names a material of the scene, `TraceRayOnce` returns a
colour, at every depth. -/
theorem TraceRayOnce_returns (ops : GlmOps F) (r : Renderer) (seedSrc : Nat → Nat)
    (scene : Scene F)
    (hvalid : ∀ s ∈ scene.spheres, ∃ mat, scene.GetMaterial s.materialID = some mat) :
    ∀ (n dep : Nat) (ray : Ray F), r.m_MaxBounceCount - dep = n →
      ∃ c, Renderer.TraceRayOnce ops r seedSrc scene ray dep = some c := by
  intro n
  induction n with
  | zero =>
    intro dep ray h
    refine ⟨Renderer.GetSkyLight ops ray, ?_⟩
    unfold Renderer.TraceRayOnce
    rw [TraceRayOnceCounted_depth ops r seedSrc scene ray dep (by omega)]
  | succ n ih =>
    intro dep ray h
    have hdep : dep < r.m_MaxBounceCount := by omega
    unfold Renderer.TraceRayOnce
    cases hhit : (Renderer.CalculateRayCollision ops scene ray).didHit
    · rw [TraceRayOnceCounted_miss ops r seedSrc scene ray dep hdep hhit]
      exact ⟨_, rfl⟩
    · obtain ⟨s, hs, hid⟩ := CalculateRayCollision_materialID ops scene ray hhit
      obtain ⟨mat, hmat⟩ := hvalid s hs
      rw [← hid] at hmat
      obtain ⟨directColor, hdirect⟩ := CalculateDirectLight_some ops r scene
        (Renderer.CalculateRayCollision ops scene ray) ray mat hmat
      rw [TraceRayOnceCounted_hit ops r seedSrc scene ray dep mat directColor hdep hhit hmat
        hdirect]
      obtain ⟨c, hc⟩ := ih (dep + 1) (Renderer.bounceRay ops mat (seedSrc dep % 4294967296)
        (Renderer.CalculateRayCollision ops scene ray) ray) (by omega)
      unfold Renderer.TraceRayOnce at hc
      simp only [hc, Option.map_some']
      exact ⟨_, rfl⟩

/-! ## An unlit, smooth, non-metallic sphere -/

/-- The composition of `TraceRayOnce` for a non-metallic material and a black
direct term: the emission plus the indirect colour, tinted by the albedo and
weighted by the Fresnel term. -/
theorem compose_unlit (ops : GlmOps F) (mat : Material F) (hitInfo : HitInfo F) (ray : Ray F)
    (indirect : Vec3 F) (hmetal : mat.metallic = 0) :
    Renderer.compose ops mat hitInfo ray ⟨0, 0, 0⟩ indirect =
      mat.GetEmission + mat.albedo * indirect.scale
        (mat.FresnelSchlick ops (dot (normalize ops (-ray.direction)) hitInfo.normal)).x := by
  simp only [Renderer.compose, hmetal]
  ext <;> simp

/-- In a scene with a single sphere, the closest hit of a ray that hits the
sphere is its `RaySphere` record. -/
theorem CalculateRayCollision_single (ops : GlmOps F) (scene : Scene F) (ray : Ray F)
    (sphere : Sphere F) (hone : scene.spheres = [sphere])
    (hhit : (Renderer.RaySphere ops ray sphere).didHit = true) :
    Renderer.CalculateRayCollision ops scene ray = Renderer.RaySphere ops ray sphere := by
  simp [Renderer.CalculateRayCollision, hone, Renderer.collisionStep, hhit]

/-- A hit on a non-metallic material under a light of intensity zero: the
colour is the composition of the emission with the colour of the bounce ray. -/
theorem TraceRayOnce_unlit_hit (ops : GlmOps F) (r : Renderer) (seedSrc : Nat → Nat)
    (scene : Scene F) (ray : Ray F) (dep : Nat) (mat : Material F)
    (hdep : dep < r.m_MaxBounceCount)
    (hhit : (Renderer.CalculateRayCollision ops scene ray).didHit = true)
    (hmat : scene.GetMaterial (Renderer.CalculateRayCollision ops scene ray).materialID =
      some mat)
    (hmetal : mat.metallic = 0) (hlight : scene.directionalLight.intensity = 0) :
    Renderer.TraceRayOnce ops r seedSrc scene ray dep =
      (Renderer.TraceRayOnce ops r seedSrc scene
        (Renderer.bounceRay ops mat (seedSrc dep % 4294967296)
          (Renderer.CalculateRayCollision ops scene ray) ray) (dep + 1)).map
        (fun indirect => mat.GetEmission + mat.albedo * indirect.scale
          (mat.FresnelSchlick ops (dot (normalize ops (-ray.direction))
            (Renderer.CalculateRayCollision ops scene ray).normal)).x) := by
  unfold Renderer.TraceRayOnce
  rw [TraceRayOnceCounted_hit ops r seedSrc scene ray dep mat ⟨0, 0, 0⟩ hdep hhit hmat
    (CalculateDirectLight_unlit ops r scene _ ray mat hmat hlight)]
  simp only
  congr 1
  funext indirect
  exact compose_unlit ops mat _ ray indirect hmetal

/-- A smooth material reflects like a mirror: the bounce ray does not read the
seed. -/
theorem bounceRay_smooth (ops : GlmOps F) (mat : Material F) (seed : Nat) (hitInfo : HitInfo F)
    (ray : Ray F) (hrough : mat.roughness = 0) :
    Renderer.bounceRay ops mat seed hitInfo ray =
      ⟨hitInfo.hitPoint + hitInfo.normal.scale 0.001,
        normalize ops (reflect ray.direction hitInfo.normal)⟩ := by
  simp [Renderer.bounceRay, hrough]

/-- The value of `smoothstep` lies in `[0, 1]`. -/
theorem smoothstep_mem (edge0 edge1 x : F) :
    0 ≤ smoothstep edge0 edge1 x ∧ smoothstep edge0 edge1 x ≤ 1 := by
  have hc0 : 0 ≤ clamp ((x - edge0) / (edge1 - edge0)) 0 1 := by
    simp [clamp]
  have hc1 : clamp ((x - edge0) / (edge1 - edge0)) 0 1 ≤ 1 := by
    simp [clamp]
  simp only [smoothstep]
  constructor
  · have : 0 ≤ 3 - 2 * clamp ((x - edge0) / (edge1 - edge0)) 0 1 := by linarith
    positivity
  · nlinarith [mul_nonneg (mul_nonneg (sub_nonneg.mpr hc1) (sub_nonneg.mpr hc1))
      (by linarith : (0 : F) ≤ 1 + 2 * clamp ((x - edge0) / (edge1 - edge0)) 0 1)]

/-- The sky is never black: its red channel is at least `1 / 20`. -/
theorem GetSkyLight_red (ops : GlmOps F) (ray : Ray F) :
    1 / 20 ≤ (Renderer.GetSkyLight ops ray).x := by
  obtain ⟨h0, h1⟩ := smoothstep_mem 0 0.4 (normalize ops ray.direction).y
  simp only [Renderer.GetSkyLight, clampVec, mix, clamp, Vec3.add_x, Vec3.scale_x]
  have hglow : 0 ≤ 1.0 * (1 - |(normalize ops ray.direction).y|) *
      (1 - |(normalize ops ray.direction).y|) * (0.25 : F) := by
    have := mul_self_nonneg (1 - |(normalize ops ray.direction).y|)
    norm_num
    nlinarith
  have hmix : (1 / 20 : F) ≤ 0.3 * (1 - smoothstep 0 0.4 (normalize ops ray.direction).y) +
      0.05 * smoothstep 0 0.4 (normalize ops ray.direction).y := by
    norm_num
    nlinarith
  refine le_min (le_max_of_le_left ?_) (by norm_num)
  linarith

/-- C8, amended. In a scene with one sphere whose material has roughness `0`
and metallic `0`, under a light of intensity `0`, a ray that hits the sphere
(with `m_MaxBounceCount ≥ 1`) gets no direct light, is continued along the
mirror direction, and is rendered to the emission colour plus the colour of
the continued ray, tinted by the albedo and weighted by the Fresnel term.  With
`m_MaxBounceCount = 1` the colour of the continued ray is the sky colour, and
the sky is never black.  The result is the emission colour alone when the
albedo is black. -/
theorem TraceRayOnce_unlit (ops : GlmOps F) (r : Renderer) (seedSrc : Nat → Nat)
    (scene : Scene F) (ray : Ray F) (sphere : Sphere F) (mat : Material F)
    (hone : scene.spheres = [sphere])
    (hmat : scene.GetMaterial sphere.materialID = some mat)
    (hrough : mat.roughness = 0) (hmetal : mat.metallic = 0)
    (hlight : scene.directionalLight.intensity = 0)
    (hmax : 1 ≤ r.m_MaxBounceCount)
    (hhit : (Renderer.RaySphere ops ray sphere).didHit = true) :
    (∀ ray' : Ray F, 1 / 20 ≤ (Renderer.GetSkyLight ops ray').x) ∧
    Renderer.CalculateDirectLight ops r scene (Renderer.RaySphere ops ray sphere) ray =
      some ⟨0, 0, 0⟩ ∧
    Renderer.bounceRay ops mat (seedSrc 0 % 4294967296) (Renderer.RaySphere ops ray sphere) ray =
      ⟨(Renderer.RaySphere ops ray sphere).hitPoint +
          (Renderer.RaySphere ops ray sphere).normal.scale 0.001,
        normalize ops (reflect ray.direction (Renderer.RaySphere ops ray sphere).normal)⟩ ∧
    ∃ indirect,
      Renderer.TraceRayOnce ops r seedSrc scene
        (Renderer.bounceRay ops mat (seedSrc 0 % 4294967296)
          (Renderer.RaySphere ops ray sphere) ray) 1 = some indirect ∧
      (r.m_MaxBounceCount = 1 → indirect = Renderer.GetSkyLight ops
        (Renderer.bounceRay ops mat (seedSrc 0 % 4294967296)
          (Renderer.RaySphere ops ray sphere) ray)) ∧
      Renderer.TraceRayOnce ops r seedSrc scene ray 0 =
        some (mat.GetEmission + mat.albedo * indirect.scale
          (mat.FresnelSchlick ops (dot (normalize ops (-ray.direction))
            (Renderer.RaySphere ops ray sphere).normal)).x) ∧
      (mat.albedo = ⟨0, 0, 0⟩ →
        Renderer.TraceRayOnce ops r seedSrc scene ray 0 = some mat.GetEmission) := by
  have hcol := CalculateRayCollision_single ops scene ray sphere hone hhit
  have hmat' : scene.GetMaterial (Renderer.RaySphere ops ray sphere).materialID = some mat := by
    rw [RaySphere_materialID ops ray sphere hhit]
    exact hmat
  have hvalid : ∀ s ∈ scene.spheres, ∃ m, scene.GetMaterial s.materialID = some m := by
    intro s hs
    rw [hone, List.mem_singleton] at hs
    subst hs
    exact ⟨mat, hmat⟩
  obtain ⟨indirect, hind⟩ := TraceRayOnce_returns ops r seedSrc scene hvalid
    (r.m_MaxBounceCount - 1) 1
    (Renderer.bounceRay ops mat (seedSrc 0 % 4294967296) (Renderer.RaySphere ops ray sphere) ray)
    rfl
  have hstep := TraceRayOnce_unlit_hit ops r seedSrc scene ray 0 mat (by omega)
    (by rw [hcol]; exact hhit) (by rw [hcol]; exact hmat') hmetal hlight
  rw [hcol, hind, Option.map_some'] at hstep
  refine ⟨GetSkyLight_red ops, CalculateDirectLight_unlit ops r scene _ ray mat hmat' hlight,
    bounceRay_smooth ops mat _ _ ray hrough, indirect, hind, ?_, hstep, ?_⟩
  · intro h1
    have hsky := TraceRayOnceCounted_depth ops r seedSrc scene
      (Renderer.bounceRay ops mat (seedSrc 0 % 4294967296)
        (Renderer.RaySphere ops ray sphere) ray) 1 (by omega)
    unfold Renderer.TraceRayOnce at hind
    rw [hsky] at hind
    exact (Option.some.inj hind).symm
  · intro halb
    rw [hstep, halb]
    congr 1
    ext <;> simp
/-- The square root of `ratOps` at `1`. -/
theorem ratOps_sqrt_one : ratOps.sqrt 1 = 1 := by
  have h := ratOps_sqrt_mul_self 1 (by norm_num)
  norm_num at h
  exact h

/-- The square root of `ratOps` at `4`. -/
theorem ratOps_sqrt_four : ratOps.sqrt 4 = 2 := by
  have h := ratOps_sqrt_mul_self 2 (by norm_num)
  norm_num at h
  exact h

/-- The record of `headOnRay` on `unitSphere`: a hit at distance `4`. -/
theorem headOnRay_hit :
    Renderer.RaySphere ratOps headOnRay unitSphere =
      { didHit := true, dist := 4, hitPoint := ⟨0, 0, 1⟩, normal := ⟨0, 0, 1⟩,
        materialID := 0 } := by
  have hd : discriminant headOnRay unitSphere = 4 := by
    norm_num [discriminant, quadA, quadB, quadC, dot, headOnRay, unitSphere]
  have ht : smallerRoot ratOps headOnRay unitSphere = 4 := by
    rw [smallerRoot, hd, ratOps_sqrt_four]
    norm_num [quadA, quadB, dot, headOnRay, unitSphere]
  rw [RaySphere_unfold, hd, ht]
  norm_num [headOnRay, unitSphere, normalize, dot, ratOps_sqrt_one]
  constructor <;> ext <;> norm_num

/-- The sky straight along the `z` axis. -/
theorem GetSkyLight_horizon (o : Vec3 ℚ) :
    Renderer.GetSkyLight ratOps ⟨o, ⟨0, 0, 1⟩⟩ = ⟨11 / 20, 31 / 40, 11 / 10⟩ := by
  simp only [Renderer.GetSkyLight, normalize, dot]
  norm_num [ratOps_sqrt_one, smoothstep, clamp, mix, clampVec]

/-- Counterexample to C8 as stated: the unit sphere with a grey, smooth,
non-metallic material of emission `(2, 2, 2)`, a light of intensity `0`, one
bounce, and the ray from `(0, 0, 5)` down the `z` axis.  The ray is mirrored
into the sky, whose colour there is `(11/20, 31/40, 11/10)`, and the result
exceeds the emission colour in every channel. -/
theorem TraceRayOnce_unlit_counterexample :
    unitScene.spheres = [unitSphere] ∧
    unitScene.GetMaterial unitSphere.materialID =
      some ⟨⟨4 / 5, 4 / 5, 4 / 5⟩, 0, 0, ⟨1, 1, 1⟩, 2⟩ ∧
    unitScene.directionalLight.intensity = 0 ∧
    1 ≤ oneBounce.m_MaxBounceCount ∧
    (Renderer.RaySphere ratOps headOnRay unitSphere).didHit = true ∧
    Material.GetEmission (⟨⟨4 / 5, 4 / 5, 4 / 5⟩, 0, 0, ⟨1, 1, 1⟩, 2⟩ : Material ℚ) = ⟨2, 2, 2⟩ ∧
    Renderer.GetSkyLight ratOps ⟨⟨0, 0, 1001 / 1000⟩, ⟨0, 0, 1⟩⟩ = ⟨11 / 20, 31 / 40, 11 / 10⟩ ∧
    Renderer.TraceRayOnce ratOps oneBounce (fun _ => 7) unitScene headOnRay 0 =
      some ⟨2 + 11 / 625, 2 + 31 / 1250, 2 + 22 / 625⟩ ∧
    Renderer.TraceRayOnce ratOps oneBounce (fun _ => 7) unitScene headOnRay 0 ≠
      some (Material.GetEmission (⟨⟨4 / 5, 4 / 5, 4 / 5⟩, 0, 0, ⟨1, 1, 1⟩, 2⟩ : Material ℚ)) := by
  have hhit : (Renderer.RaySphere ratOps headOnRay unitSphere).didHit = true := by
    rw [headOnRay_hit]
  have hcol : Renderer.CalculateRayCollision ratOps unitScene headOnRay =
      { didHit := true, dist := 4, hitPoint := ⟨0, 0, 1⟩, normal := ⟨0, 0, 1⟩,
        materialID := 0 } := by
    rw [CalculateRayCollision_single ratOps unitScene headOnRay unitSphere rfl hhit,
      headOnRay_hit]
  have hmat : unitScene.GetMaterial 0 = some ⟨⟨4 / 5, 4 / 5, 4 / 5⟩, 0, 0, ⟨1, 1, 1⟩, 2⟩ := rfl
  have hbounce : Renderer.bounceRay ratOps ⟨⟨4 / 5, 4 / 5, 4 / 5⟩, 0, 0, ⟨1, 1, 1⟩, 2⟩
      ((fun _ => 7) 0 % 4294967296)
      { didHit := true, dist := 4, hitPoint := ⟨0, 0, 1⟩, normal := ⟨0, 0, 1⟩, materialID := 0 }
      headOnRay = ⟨⟨0, 0, 1001 / 1000⟩, ⟨0, 0, 1⟩⟩ := by
    rw [bounceRay_smooth _ _ _ _ _ rfl]
    norm_num [headOnRay, reflect, normalize, dot, ratOps_sqrt_one]
    constructor <;> ext <;> norm_num
  have hfresnel : (Material.FresnelSchlick ratOps
      (⟨⟨4 / 5, 4 / 5, 4 / 5⟩, 0, 0, ⟨1, 1, 1⟩, 2⟩ : Material ℚ)
      (dot (normalize ratOps (-headOnRay.direction)) (⟨0, 0, 1⟩ : Vec3 ℚ))).x = 1 / 25 := by
    norm_num [Material.FresnelSchlick, headOnRay, normalize, dot, ratOps_sqrt_one, clamp,
      Vec3.splat]
    norm_num [ratOps]
  have hval : Renderer.TraceRayOnce ratOps oneBounce (fun _ => 7) unitScene headOnRay 0 =
      some ⟨2 + 11 / 625, 2 + 31 / 1250, 2 + 22 / 625⟩ := by
    rw [TraceRayOnce_unlit_hit ratOps oneBounce (fun _ => 7) unitScene headOnRay 0
      ⟨⟨4 / 5, 4 / 5, 4 / 5⟩, 0, 0, ⟨1, 1, 1⟩, 2⟩ (by decide) (by rw [hcol])
      (by rw [hcol]; exact hmat) rfl rfl]
    rw [hcol, hbounce]
    unfold Renderer.TraceRayOnce
    rw [TraceRayOnceCounted_depth ratOps oneBounce _ unitScene _ (0 + 1) (by decide)]
    simp only [Option.map_some', hfresnel, GetSkyLight_horizon]
    congr 1
    ext <;> norm_num [Material.GetEmission]
  refine ⟨rfl, rfl, rfl, by decide, hhit, ?_, GetSkyLight_horizon _, hval, ?_⟩
  · ext <;> norm_num [Material.GetEmission]
  · rw [hval]
    intro h
    have hx := congrArg (fun c : Option (Vec3 ℚ) => c.map (fun v => v.x)) h
    norm_num [Material.GetEmission] at hx

/-- Witness of C8: `headOnRay` on `unitScene` with one bounce. -/
theorem TraceRayOnce_unlit_witness :
    Renderer.CalculateDirectLight ratOps oneBounce unitScene
      (Renderer.RaySphere ratOps headOnRay unitSphere) headOnRay = some ⟨0, 0, 0⟩ :=
  (TraceRayOnce_unlit ratOps oneBounce (fun _ => 7) unitScene headOnRay unitSphere
    ⟨⟨4 / 5, 4 / 5, 4 / 5⟩, 0, 0, ⟨1, 1, 1⟩, 2⟩ rfl rfl rfl rfl rfl (by decide)
    (by rw [headOnRay_hit])).2.1

/-! ## Termination of `TraceRayOnce` -/

/-- A hit whose material does not exist: the path stops without a colour. -/
theorem TraceRayOnceCounted_nomat (ops : GlmOps F) (r : Renderer) (seedSrc : Nat → Nat)
    (scene : Scene F) (ray : Ray F) (dep : Nat) (hdep : dep < r.m_MaxBounceCount)
    (hhit : (Renderer.CalculateRayCollision ops scene ray).didHit = true)
    (hmat : scene.GetMaterial (Renderer.CalculateRayCollision ops scene ray).materialID = none) :
    Renderer.TraceRayOnceCounted ops r seedSrc scene ray dep = ⟨none, 1, 0⟩ := by
  rw [Renderer.TraceRayOnceCounted]
  simp only [Nat.not_le.mpr hdep, hhit, hmat]
  simp

/-- Below the depth bound a call of `TraceRayOnce` intersects the scene once and
then either stops or makes one recursive call, at depth `dep + 1`. -/
theorem TraceRayOnceCounted_step (ops : GlmOps F) (r : Renderer) (seedSrc : Nat → Nat)
    (scene : Scene F) (ray : Ray F) (dep : Nat) (hdep : dep < r.m_MaxBounceCount) :
    ((Renderer.TraceRayOnceCounted ops r seedSrc scene ray dep).intersections = 1 ∧
      (Renderer.TraceRayOnceCounted ops r seedSrc scene ray dep).bounces = 0) ∨
    ∃ newRay : Ray F,
      (Renderer.TraceRayOnceCounted ops r seedSrc scene ray dep).intersections =
        1 + (Renderer.TraceRayOnceCounted ops r seedSrc scene newRay (dep + 1)).intersections ∧
      (Renderer.TraceRayOnceCounted ops r seedSrc scene ray dep).bounces =
        1 + (Renderer.TraceRayOnceCounted ops r seedSrc scene newRay (dep + 1)).bounces := by
  cases hhit : (Renderer.CalculateRayCollision ops scene ray).didHit
  · left
    rw [TraceRayOnceCounted_miss ops r seedSrc scene ray dep hdep hhit]
    exact ⟨rfl, rfl⟩
  · cases hmat : scene.GetMaterial (Renderer.CalculateRayCollision ops scene ray).materialID with
    | none =>
      left
      rw [TraceRayOnceCounted_nomat ops r seedSrc scene ray dep hdep hhit hmat]
      exact ⟨rfl, rfl⟩
    | some mat =>
      right
      obtain ⟨directColor, hdirect⟩ := CalculateDirectLight_some ops r scene
        (Renderer.CalculateRayCollision ops scene ray) ray mat hmat
      rw [TraceRayOnceCounted_hit ops r seedSrc scene ray dep mat directColor hdep hhit hmat
        hdirect]
      exact ⟨_, rfl, rfl⟩

/-- The counters of a path are bounded by the depth that is left. -/
theorem TraceRayOnceCounted_le (ops : GlmOps F) (r : Renderer) (seedSrc : Nat → Nat)
    (scene : Scene F) :
    ∀ (n dep : Nat) (ray : Ray F), r.m_MaxBounceCount - dep = n →
      (Renderer.TraceRayOnceCounted ops r seedSrc scene ray dep).intersections ≤ n ∧
      (Renderer.TraceRayOnceCounted ops r seedSrc scene ray dep).bounces ≤ n := by
  intro n
  induction n with
  | zero =>
    intro dep ray h
    rw [TraceRayOnceCounted_depth ops r seedSrc scene ray dep (by omega)]
    exact ⟨le_refl _, le_refl _⟩
  | succ n ih =>
    intro dep ray h
    rcases TraceRayOnceCounted_step ops r seedSrc scene ray dep (by omega) with
      ⟨h1, h2⟩ | ⟨newRay, h1, h2⟩
    · omega
    · have h3 := ih (dep + 1) newRay (by omega)
      omega

/-- C9. `TraceRayOnce` is a total function.  Below the depth bound the depth
`dep + 1` does not wrap around, and a call intersects the scene once and makes
at most one recursive call, at depth `dep + 1`.  A call at depth `dep` makes at
most `m_MaxBounceCount - dep` intersections and recursive calls, at most
`m_MaxBounceCount` from depth `0`, and none when `m_MaxBounceCount = 0`.  When
every sphere names a material of the scene, the call returns a colour. -/
theorem TraceRayOnce_terminates (ops : GlmOps F) (r : Renderer) (seedSrc : Nat → Nat)
    (scene : Scene F) (ray : Ray F) (dep : Nat) :
    (dep < r.m_MaxBounceCount → (dep + 1) % 4294967296 = dep + 1 ∧
      (((Renderer.TraceRayOnceCounted ops r seedSrc scene ray dep).intersections = 1 ∧
        (Renderer.TraceRayOnceCounted ops r seedSrc scene ray dep).bounces = 0) ∨
      ∃ newRay : Ray F,
        (Renderer.TraceRayOnceCounted ops r seedSrc scene ray dep).intersections =
          1 + (Renderer.TraceRayOnceCounted ops r seedSrc scene newRay (dep + 1)).intersections ∧
        (Renderer.TraceRayOnceCounted ops r seedSrc scene ray dep).bounces =
          1 + (Renderer.TraceRayOnceCounted ops r seedSrc scene newRay (dep + 1)).bounces)) ∧
    (Renderer.TraceRayOnceCounted ops r seedSrc scene ray dep).intersections ≤
      r.m_MaxBounceCount - dep ∧
    (Renderer.TraceRayOnceCounted ops r seedSrc scene ray dep).bounces ≤
      r.m_MaxBounceCount - dep ∧
    (Renderer.TraceRayOnceCounted ops r seedSrc scene ray 0).intersections ≤
      r.m_MaxBounceCount ∧
    (Renderer.TraceRayOnceCounted ops r seedSrc scene ray 0).bounces ≤ r.m_MaxBounceCount ∧
    (r.m_MaxBounceCount = 0 →
      Renderer.TraceRayOnceCounted ops r seedSrc scene ray 0 =
        ⟨some (Renderer.GetSkyLight ops ray), 0, 0⟩) ∧
    ((∀ s ∈ scene.spheres, ∃ mat, scene.GetMaterial s.materialID = some mat) →
      ∃ c, Renderer.TraceRayOnce ops r seedSrc scene ray dep = some c) := by
  have hle := TraceRayOnceCounted_le ops r seedSrc scene (r.m_MaxBounceCount - dep) dep ray rfl
  have hle0 := TraceRayOnceCounted_le ops r seedSrc scene (r.m_MaxBounceCount - 0) 0 ray rfl
  refine ⟨fun hdep => ⟨?_, TraceRayOnceCounted_step ops r seedSrc scene ray dep hdep⟩,
    ?_, ?_, ?_, ?_, ?_, ?_⟩
  · have := r.maxBounceCount_lt
    omega
  · omega
  · omega
  · omega
  · omega
  · intro h0
    exact TraceRayOnceCounted_depth ops r seedSrc scene ray 0 (by omega)
  · intro hvalid
    exact TraceRayOnce_returns ops r seedSrc scene hvalid (r.m_MaxBounceCount - dep) dep ray rfl

/-! ## Direct light in diffuse-only mode -/

/-- The shadow loop yields `0.3` exactly when some sphere is hit by the shadow
ray further than `0.001`. -/
theorem visibility_eq (ops : GlmOps F) (scene : Scene F) (hitInfo : HitInfo F) :
    ((∃ s ∈ scene.spheres,
        (Renderer.RaySphere ops (Renderer.shadowRay ops scene hitInfo) s).didHit = true ∧
        0.001 < (Renderer.RaySphere ops (Renderer.shadowRay ops scene hitInfo) s).dist) →
      Renderer.visibility ops scene hitInfo = 0.3) ∧
    ((¬ ∃ s ∈ scene.spheres,
        (Renderer.RaySphere ops (Renderer.shadowRay ops scene hitInfo) s).didHit = true ∧
        0.001 < (Renderer.RaySphere ops (Renderer.shadowRay ops scene hitInfo) s).dist) →
      Renderer.visibility ops scene hitInfo = 1) := by
  constructor
  · intro h
    have hany : scene.spheres.any (fun sphere =>
        (Renderer.RaySphere ops (Renderer.shadowRay ops scene hitInfo) sphere).didHit &&
          decide ((Renderer.RaySphere ops (Renderer.shadowRay ops scene hitInfo) sphere).dist >
            0.001)) = true := by
      rw [List.any_eq_true]
      obtain ⟨s, hs, h1, h2⟩ := h
      exact ⟨s, hs, by simp [h1, h2]⟩
    simp only [Renderer.visibility, hany, if_true]
  · intro h
    have hany : scene.spheres.any (fun sphere =>
        (Renderer.RaySphere ops (Renderer.shadowRay ops scene hitInfo) sphere).didHit &&
          decide ((Renderer.RaySphere ops (Renderer.shadowRay ops scene hitInfo) sphere).dist >
            0.001)) = false := by
      rw [← Bool.not_eq_true, List.any_eq_true]
      rintro ⟨s, hs, hp⟩
      simp only [Bool.and_eq_true, decide_eq_true_eq, gt_iff_lt] at hp
      exact h ⟨s, hs, hp⟩
    simp only [Renderer.visibility, hany]
    norm_num

/-- C10, amended. In diffuse-only mode `CalculateDirectLight` returns
`albedo × max(0, dot(normal, −lightDir)) × light colour × light intensity ×
visibility`, where `lightDir` is the normalised light direction and the
visibility is `0.3` if some sphere of the scene is hit at a distance greater
than `0.001` by the shadow ray from `hitPoint + 0.001 · normal` towards
`−lightDir`, and `1` otherwise. -/
theorem CalculateDirectLight_diffuse (ops : GlmOps F) (r : Renderer) (scene : Scene F)
    (hitInfo : HitInfo F) (ray : Ray F) (mat : Material F)
    (hjust : r.m_JustDiffuse = true)
    (hmat : scene.GetMaterial hitInfo.materialID = some mat) :
    Renderer.shadowRay ops scene hitInfo =
      ⟨hitInfo.hitPoint + hitInfo.normal.scale 0.001,
        -normalize ops scene.directionalLight.direction⟩ ∧
    ((∃ s ∈ scene.spheres,
        (Renderer.RaySphere ops (Renderer.shadowRay ops scene hitInfo) s).didHit = true ∧
        0.001 < (Renderer.RaySphere ops (Renderer.shadowRay ops scene hitInfo) s).dist) →
      Renderer.CalculateDirectLight ops r scene hitInfo ray =
        some ((((mat.albedo.scale
          (max 0 (dot hitInfo.normal (-normalize ops scene.directionalLight.direction)))) *
          scene.directionalLight.color).scale scene.directionalLight.intensity).scale 0.3)) ∧
    ((¬ ∃ s ∈ scene.spheres,
        (Renderer.RaySphere ops (Renderer.shadowRay ops scene hitInfo) s).didHit = true ∧
        0.001 < (Renderer.RaySphere ops (Renderer.shadowRay ops scene hitInfo) s).dist) →
      Renderer.CalculateDirectLight ops r scene hitInfo ray =
        some ((((mat.albedo.scale
          (max 0 (dot hitInfo.normal (-normalize ops scene.directionalLight.direction)))) *
          scene.directionalLight.color).scale scene.directionalLight.intensity).scale 1)) := by
  obtain ⟨hv1, hv2⟩ := visibility_eq ops scene hitInfo
  refine ⟨rfl, fun h => ?_, fun h => ?_⟩
  · simp only [Renderer.CalculateDirectLight, hmat, hjust, if_true, hv1 h]
  · simp only [Renderer.CalculateDirectLight, hmat, hjust, if_true, hv2 h]

/-- The shadow ray of `surfaceHit` in `shadowScene` starts `1 / 1000` above the
surface and runs up the `z` axis. -/
theorem shadowScene_ray :
    Renderer.shadowRay ratOps shadowScene surfaceHit = ⟨⟨0, 0, 1 / 1000⟩, ⟨0, 0, 1⟩⟩ := by
  norm_num [Renderer.shadowRay, shadowScene, surfaceHit, normalize, dot, ratOps_sqrt_one]
  constructor <;> ext <;> norm_num

/-- The shadow ray misses the lower sphere of `shadowScene`. -/
theorem shadowScene_lower :
    (Renderer.RaySphere ratOps ⟨⟨0, 0, 1 / 1000⟩, ⟨0, 0, 1⟩⟩ ⟨⟨0, 0, -1⟩, 1, 0⟩).didHit = false := by
  have hd : discriminant (⟨⟨0, 0, 1 / 1000⟩, ⟨0, 0, 1⟩⟩ : Ray ℚ) ⟨⟨0, 0, -1⟩, 1, 0⟩ = 4 := by
    norm_num [discriminant, quadA, quadB, quadC, dot]
  have ht : smallerRoot ratOps (⟨⟨0, 0, 1 / 1000⟩, ⟨0, 0, 1⟩⟩ : Ray ℚ) ⟨⟨0, 0, -1⟩, 1, 0⟩ =
      -2001 / 1000 := by
    rw [smallerRoot, hd, ratOps_sqrt_four]
    norm_num [quadA, quadB, dot]
  rw [RaySphere_unfold, hd, ht]
  norm_num

/-- The shadow ray hits the upper sphere of `shadowScene` at distance
`1 / 2000`. -/
theorem shadowScene_upper :
    (Renderer.RaySphere ratOps ⟨⟨0, 0, 1 / 1000⟩, ⟨0, 0, 1⟩⟩
      ⟨⟨0, 0, 2003 / 2000⟩, 1, 0⟩).didHit = true ∧
    (Renderer.RaySphere ratOps ⟨⟨0, 0, 1 / 1000⟩, ⟨0, 0, 1⟩⟩
      ⟨⟨0, 0, 2003 / 2000⟩, 1, 0⟩).dist = 1 / 2000 := by
  have hd : discriminant (⟨⟨0, 0, 1 / 1000⟩, ⟨0, 0, 1⟩⟩ : Ray ℚ)
      ⟨⟨0, 0, 2003 / 2000⟩, 1, 0⟩ = 4 := by
    norm_num [discriminant, quadA, quadB, quadC, dot]
  have ht : smallerRoot ratOps (⟨⟨0, 0, 1 / 1000⟩, ⟨0, 0, 1⟩⟩ : Ray ℚ)
      ⟨⟨0, 0, 2003 / 2000⟩, 1, 0⟩ = 1 / 2000 := by
    rw [smallerRoot, hd, ratOps_sqrt_four]
    norm_num [quadA, quadB, dot]
  rw [RaySphere_unfold, hd, ht]
  norm_num

/-- Counterexample to C10 as stated: the shadow ray hits the upper sphere of
`shadowScene` at the positive distance `1 / 2000`, and the visibility is `1`,
not `0.3`: the result is `(4/5, 4/5, 4/5)`. -/
theorem CalculateDirectLight_counterexample :
    diffuseOnly.m_JustDiffuse = true ∧
    (∃ s ∈ shadowScene.spheres,
      (Renderer.RaySphere ratOps (Renderer.shadowRay ratOps shadowScene surfaceHit) s).didHit =
        true ∧
      0 < (Renderer.RaySphere ratOps (Renderer.shadowRay ratOps shadowScene surfaceHit) s).dist) ∧
    Renderer.CalculateDirectLight ratOps diffuseOnly shadowScene surfaceHit headOnRay =
      some ⟨4 / 5, 4 / 5, 4 / 5⟩ ∧
    Renderer.CalculateDirectLight ratOps diffuseOnly shadowScene surfaceHit headOnRay ≠
      some (((((⟨4 / 5, 4 / 5, 4 / 5⟩ : Vec3 ℚ).scale
        (max 0 (dot surfaceHit.normal
          (-normalize ratOps shadowScene.directionalLight.direction)))) *
        shadowScene.directionalLight.color).scale shadowScene.directionalLight.intensity).scale
        0.3) := by
  have hvis : Renderer.visibility ratOps shadowScene surfaceHit = 1 := by
    apply (visibility_eq ratOps shadowScene surfaceHit).2
    rintro ⟨s, hs, hhit, hdist⟩
    rw [shadowScene_ray] at hhit hdist
    simp only [shadowScene, List.mem_cons, List.mem_singleton, List.not_mem_nil, or_false] at hs
    rcases hs with rfl | rfl
    · rw [shadowScene_lower] at hhit
      exact absurd hhit (by simp)
    · rw [shadowScene_upper.2] at hdist
      norm_num at hdist
  have hval : Renderer.CalculateDirectLight ratOps diffuseOnly shadowScene surfaceHit headOnRay =
      some ⟨4 / 5, 4 / 5, 4 / 5⟩ := by
    have hmat : shadowScene.GetMaterial surfaceHit.materialID =
        some ⟨⟨4 / 5, 4 / 5, 4 / 5⟩, 0, 1 / 2, ⟨0, 0, 0⟩, 0⟩ := rfl
    simp only [Renderer.CalculateDirectLight, hmat, hvis, diffuseOnly, if_true]
    norm_num [shadowScene, surfaceHit, normalize, dot, ratOps_sqrt_one]
    ext <;> norm_num
  refine ⟨rfl, ⟨⟨⟨0, 0, 2003 / 2000⟩, 1, 0⟩, by simp [shadowScene], ?_, ?_⟩, hval, ?_⟩
  · rw [shadowScene_ray]
    exact shadowScene_upper.1
  · rw [shadowScene_ray, shadowScene_upper.2]
    norm_num
  · rw [hval]
    intro h
    have hx := congrArg (fun c : Option (Vec3 ℚ) => c.map (fun v => v.x)) h
    norm_num [shadowScene, surfaceHit, normalize, dot, ratOps_sqrt_one] at hx

/-- Witness of C10: `surfaceHit` in `shadowScene`. -/
theorem CalculateDirectLight_diffuse_witness :
    Renderer.shadowRay ratOps shadowScene surfaceHit =
      ⟨surfaceHit.hitPoint + surfaceHit.normal.scale 0.001,
        -normalize ratOps shadowScene.directionalLight.direction⟩ ∧
    ((¬ ∃ s ∈ shadowScene.spheres,
        (Renderer.RaySphere ratOps (Renderer.shadowRay ratOps shadowScene surfaceHit) s).didHit =
          true ∧
        0.001 <
          (Renderer.RaySphere ratOps (Renderer.shadowRay ratOps shadowScene surfaceHit) s).dist) →
      Renderer.CalculateDirectLight ratOps diffuseOnly shadowScene surfaceHit headOnRay =
        some (((((⟨4 / 5, 4 / 5, 4 / 5⟩ : Vec3 ℚ).scale
          (max 0 (dot surfaceHit.normal
            (-normalize ratOps shadowScene.directionalLight.direction)))) *
          shadowScene.directionalLight.color).scale
          shadowScene.directionalLight.intensity).scale 1)) :=
  ⟨(CalculateDirectLight_diffuse ratOps diffuseOnly shadowScene surfaceHit headOnRay
      ⟨⟨4 / 5, 4 / 5, 4 / 5⟩, 0, 1 / 2, ⟨0, 0, 0⟩, 0⟩ rfl rfl).1,
    (CalculateDirectLight_diffuse ratOps diffuseOnly shadowScene surfaceHit headOnRay
      ⟨⟨4 / 5, 4 / 5, 4 / 5⟩, 0, 1 / 2, ⟨0, 0, 0⟩, 0⟩ rfl rfl).2.2⟩

/-! ## The ray table of the camera -/

/-- One row of writes: the entries of the row hold the new values, the other
entries are unchanged. -/
theorem row_writes {α : Type} (f : Nat → α) (w y n : Nat) (hrow : w + y * w ≤ n)
    (hn : n < 4294967296) :
    ∀ k, k ≤ w → ∀ t : List α, t.length = n →
      ∃ t', (List.range k).foldl
          (fun acc x => acc.bind (fun t => writeAt t ((x + y * w) % 4294967296) (f x)))
          (some t) = some t' ∧
        t'.length = n ∧
        (∀ x, x < k → t'[x + y * w]? = some (f x)) ∧
        (∀ i, (∀ x, x < k → i ≠ x + y * w) → t'[i]? = t[i]?) := by
  intro k
  induction k with
  | zero =>
    intro _ t ht
    exact ⟨t, rfl, ht, fun x hx => absurd hx (Nat.not_lt_zero x), fun i _ => rfl⟩
  | succ k ih =>
    intro hk t ht
    obtain ⟨t', hfold, hlen, hnew, hold⟩ := ih (by omega) t ht
    have hmod : (k + y * w) % 4294967296 = k + y * w := Nat.mod_eq_of_lt (by omega)
    have hidx : k + y * w < t'.length := by omega
    refine ⟨t'.set (k + y * w) (f k), ?_, ?_, ?_, ?_⟩
    · rw [List.range_succ, List.foldl_append, hfold]
      simp only [List.foldl_cons, List.foldl_nil, Option.bind, hmod, writeAt, hidx, if_true]
    · simpa using hlen
    · intro x hx
      by_cases hxk : x = k
      · subst hxk
        exact List.getElem?_set_self hidx
      · rw [List.getElem?_set_ne (by omega)]
        exact hnew x (by omega)
    · intro i hi
      rw [List.getElem?_set_ne (by have := hi k (by omega); omega)]
      exact hold i (fun x hx => hi x (by omega))

/-- All rows of writes: every entry `x + y * w` of the rows written holds its
new value. -/
theorem table_writes {α : Type} (g : Nat → Nat → α) (w h n : Nat) (hsize : w * h ≤ n)
    (hn : n < 4294967296) :
    ∀ j, j ≤ h → ∀ t : List α, t.length = n →
      ∃ t', (List.range j).foldl
          (fun acc y => (List.range w).foldl
            (fun acc x => acc.bind (fun t => writeAt t ((x + y * w) % 4294967296) (g x y)))
            acc)
          (some t) = some t' ∧
        t'.length = n ∧
        ∀ y, y < j → ∀ x, x < w → t'[x + y * w]? = some (g x y) := by
  intro j
  induction j with
  | zero =>
    intro _ t ht
    exact ⟨t, rfl, ht, fun y hy => absurd hy (Nat.not_lt_zero y)⟩
  | succ j ih =>
    intro hj t ht
    obtain ⟨t', hfold, hlen, hrows⟩ := ih (by omega) t ht
    have hjw : w + j * w ≤ n := by
      have h1 : (j + 1) * w ≤ h * w := Nat.mul_le_mul_right w hj
      have h2 : h * w = w * h := Nat.mul_comm h w
      have h3 : (j + 1) * w = w + j * w := by ring
      omega
    obtain ⟨t'', hrow, hlen', hnew, hold⟩ :=
      row_writes (fun x => g x j) w j n hjw hn w (le_refl w) t' hlen
    refine ⟨t'', ?_, hlen', ?_⟩
    · rw [List.range_succ, List.foldl_append, hfold]
      simp only [List.foldl_cons, List.foldl_nil]
      exact hrow
    · intro y hy x hx
      by_cases hyj : y = j
      · subst hyj
        exact hnew x hx
      · have hlt : y < j := by omega
        have h1 : (y + 1) * w ≤ j * w := Nat.mul_le_mul_right w hlt
        have h2 : (y + 1) * w = y * w + w := by ring
        rw [hold (x + y * w) (fun x' _ => by omega)]
        exact hrows y hlt x hx

/-- The loop body of `RecalculateRayDirections` unprojects `pixelCoord`. -/
theorem rayDirection_eq (ops : GlmOps F) (cam : Camera F) (x y : Nat) :
    Camera.rayDirection ops cam x y = Camera.unproject ops cam (Camera.pixelCoord cam x y) :=
  rfl

/-- Without overflow of `width * height`, `RecalculateRayDirections` returns a
table of `width * height` entries whose entry `x + y * width` is the direction
of pixel `(x, y)`. -/
theorem RecalculateRayDirections_entries (ops : GlmOps F) (cam : Camera F)
    (h : cam.m_ViewportWidth * cam.m_ViewportHeight < 4294967296) :
    ∃ t, Camera.RecalculateRayDirections ops cam = some { cam with m_RayDirections := t } ∧
      t.length = cam.m_ViewportWidth * cam.m_ViewportHeight ∧
      ∀ x y, x < cam.m_ViewportWidth → y < cam.m_ViewportHeight →
        t[x + y * cam.m_ViewportWidth]? = some (Camera.rayDirection ops cam x y) := by
  have hlen := resizeTable_length cam.m_RayDirections
    ((cam.m_ViewportWidth * cam.m_ViewportHeight) % 4294967296)
  rw [Nat.mod_eq_of_lt h] at hlen
  obtain ⟨t, ht, hl, hrows⟩ := table_writes (fun x y => Camera.rayDirection ops cam x y)
    cam.m_ViewportWidth cam.m_ViewportHeight (cam.m_ViewportWidth * cam.m_ViewportHeight)
    (le_refl _) h cam.m_ViewportHeight (le_refl _) _ hlen
  refine ⟨t, ?_, hl, fun x y hx hy => hrows y hy x hx⟩
  simp only [Camera.RecalculateRayDirections]
  rw [Nat.mod_eq_of_lt h, ht]
  rfl
/-- Natural numbers below `2 ^ 24` are `float` values. -/
theorem roundToFloat_small (n : Nat) (h : n < 16777216) : Utils.roundToFloat n = n := by
  cases n with
  | zero => rfl
  | succ m => simp [Utils.roundToFloat, Utils.excessBits, h]

/-- The number `2 ^ 24` is a `float` value. -/
theorem roundToFloat_two_pow : Utils.roundToFloat 16777216 = 16777216 := by decide

/-- For a viewport of at most `2 ^ 24` pixels in each direction the casts of
the loop body are exact, and `pixelCoord` is the corner `(2 x / width − 1,
2 y / height − 1)` of the pixel, a point of `[-1, 1)²`. -/
theorem pixelCoord_exact (cam : Camera F) (x y : Nat)
    (hx : x < cam.m_ViewportWidth) (hy : y < cam.m_ViewportHeight)
    (hw : cam.m_ViewportWidth ≤ 16777216) (hh : cam.m_ViewportHeight ≤ 16777216) :
    Camera.pixelCoord cam x y =
      (2 * (x : F) / (cam.m_ViewportWidth : F) - 1,
        2 * (y : F) / (cam.m_ViewportHeight : F) - 1) ∧
    (-1 ≤ (Camera.pixelCoord cam x y).1 ∧ (Camera.pixelCoord cam x y).1 < 1) ∧
    (-1 ≤ (Camera.pixelCoord cam x y).2 ∧ (Camera.pixelCoord cam x y).2 < 1) := by
  have hrw : Utils.roundToFloat cam.m_ViewportWidth = cam.m_ViewportWidth := by
    rcases Nat.lt_or_eq_of_le hw with h | h
    · exact roundToFloat_small _ h
    · rw [h]; exact roundToFloat_two_pow
  have hrh : Utils.roundToFloat cam.m_ViewportHeight = cam.m_ViewportHeight := by
    rcases Nat.lt_or_eq_of_le hh with h | h
    · exact roundToFloat_small _ h
    · rw [h]; exact roundToFloat_two_pow
  have hrx : Utils.roundToFloat x = x := roundToFloat_small x (by omega)
  have hry : Utils.roundToFloat y = y := roundToFloat_small y (by omega)
  have hwpos : (0 : F) < (cam.m_ViewportWidth : F) := by exact_mod_cast (by omega : 0 < cam.m_ViewportWidth)
  have hhpos : (0 : F) < (cam.m_ViewportHeight : F) := by exact_mod_cast (by omega : 0 < cam.m_ViewportHeight)
  have hxw : (x : F) < (cam.m_ViewportWidth : F) := by exact_mod_cast hx
  have hyh : (y : F) < (cam.m_ViewportHeight : F) := by exact_mod_cast hy
  have hx0 : (0 : F) ≤ (x : F) := Nat.cast_nonneg x
  have hy0 : (0 : F) ≤ (y : F) := Nat.cast_nonneg y
  have heq : Camera.pixelCoord cam x y =
      (2 * (x : F) / (cam.m_ViewportWidth : F) - 1,
        2 * (y : F) / (cam.m_ViewportHeight : F) - 1) := by
    simp only [Camera.pixelCoord, hrw, hrh, hrx, hry]
    congr 1 <;> ring
  rw [heq]
  refine ⟨rfl, ⟨?_, ?_⟩, ⟨?_, ?_⟩⟩
  · have : 0 ≤ 2 * (x : F) / (cam.m_ViewportWidth : F) := by positivity
    simp only
    linarith
  · simp only
    rw [sub_lt_iff_lt_add, div_lt_iff₀ hwpos]
    linarith
  · have : 0 ≤ 2 * (y : F) / (cam.m_ViewportHeight : F) := by positivity
    simp only
    linarith
  · simp only
    rw [sub_lt_iff_lt_add, div_lt_iff₀ hhpos]
    linarith

/-- C11, amended. When `width * height` does not overflow 32 bits,
`RecalculateRayDirections` returns a table of exactly `width * height`
entries, and for every pixel `(x, y)` with `x < width` and `y < height` the
entry `x + y * width` is the unprojection of the point that the loop body
computes from `x / width` and `y / height`.  For a viewport of at most `2 ^ 24`
pixels in each direction that point is `(2 x / width − 1, 2 y / height − 1)`,
the lower corner of the pixel, and lies in `[-1, 1)²`. -/
theorem RecalculateRayDirections_corner (ops : GlmOps F) (cam : Camera F)
    (hsize : cam.m_ViewportWidth * cam.m_ViewportHeight < 4294967296) :
    ∃ t, Camera.RecalculateRayDirections ops cam = some { cam with m_RayDirections := t } ∧
      t.length = cam.m_ViewportWidth * cam.m_ViewportHeight ∧
      ∀ x y, x < cam.m_ViewportWidth → y < cam.m_ViewportHeight →
        t[x + y * cam.m_ViewportWidth]? =
          some (Camera.unproject ops cam (Camera.pixelCoord cam x y)) ∧
        (cam.m_ViewportWidth ≤ 16777216 → cam.m_ViewportHeight ≤ 16777216 →
          Camera.pixelCoord cam x y =
            (2 * (x : F) / (cam.m_ViewportWidth : F) - 1,
              2 * (y : F) / (cam.m_ViewportHeight : F) - 1) ∧
          (-1 ≤ (Camera.pixelCoord cam x y).1 ∧ (Camera.pixelCoord cam x y).1 < 1) ∧
          (-1 ≤ (Camera.pixelCoord cam x y).2 ∧ (Camera.pixelCoord cam x y).2 < 1)) := by
  obtain ⟨t, ht, hlen, hent⟩ := RecalculateRayDirections_entries ops cam hsize
  refine ⟨t, ht, hlen, fun x y hx hy => ⟨?_, fun hw hh => pixelCoord_exact cam x y hx hy hw hh⟩⟩
  rw [hent x y hx hy, rayDirection_eq]

/-- The square root of `ratOps` at `25 / 16`. -/
theorem ratOps_sqrt_25_16 : ratOps.sqrt (25 / 16) = 5 / 4 := by
  have h := ratOps_sqrt_mul_self (5 / 4) (by norm_num)
  norm_num at h
  exact h

/-- The point that the loop body computes for pixel `(1, 0)` of `sampleCamera`,
and the centre of that pixel. -/
theorem sampleCamera_coord :
    Camera.pixelCoord sampleCamera 1 0 = (0, -1) ∧
    Camera.pixelCentre sampleCamera 1 0 = (1 / 2, 0) := by
  have h0 : Utils.roundToFloat 0 = 0 := by decide
  have h1 : Utils.roundToFloat 1 = 1 := by decide
  have h2 : Utils.roundToFloat 2 = 2 := by decide
  constructor
  · simp only [Camera.pixelCoord, sampleCamera, h0, h1, h2]
    norm_num
  · simp only [Camera.pixelCentre, sampleCamera]
    norm_num

/-- Unprojection of the two points through `sampleCamera`. -/
theorem sampleCamera_unproject :
    Camera.unproject ratOps sampleCamera (0, -1) = ⟨0, -3 / 5, 4 / 5⟩ ∧
    Camera.unproject ratOps sampleCamera (1 / 2, 0) = ⟨3 / 5, 0, 4 / 5⟩ := by
  constructor
  · norm_num [Camera.unproject, sampleCamera, Mat4.mulVec, normalize, dot, Vec3.divScalar,
      Vec3.scale, ratOps_sqrt_25_16]
  · norm_num [Camera.unproject, sampleCamera, Mat4.mulVec, normalize, dot, Vec3.divScalar,
      Vec3.scale, ratOps_sqrt_25_16]

/-- Counterexample to C11 as stated: for pixel `(1, 0)` of the viewport of two
by one pixels the loop body unprojects `(0, -1)`, the corner of the pixel, and
stores `(0, -3/5, 4/5)` at index `1`; the centre of the pixel is `(1/2, 0)`,
whose unprojection is `(3/5, 0, 4/5)`. -/
theorem RecalculateRayDirections_counterexample :
    (1 < sampleCamera.m_ViewportWidth ∧ 0 < sampleCamera.m_ViewportHeight) ∧
    (∃ t, Camera.RecalculateRayDirections ratOps sampleCamera =
        some { sampleCamera with m_RayDirections := t } ∧
      t[1 + 0 * sampleCamera.m_ViewportWidth]? = some ⟨0, -3 / 5, 4 / 5⟩ ∧
      t[1 + 0 * sampleCamera.m_ViewportWidth]? ≠
        some (Camera.unproject ratOps sampleCamera (Camera.pixelCentre sampleCamera 1 0))) ∧
    Camera.pixelCoord sampleCamera 1 0 = (0, -1) ∧
    Camera.pixelCentre sampleCamera 1 0 = (1 / 2, 0) ∧
    Camera.unproject ratOps sampleCamera (Camera.pixelCentre sampleCamera 1 0) =
      ⟨3 / 5, 0, 4 / 5⟩ := by
  obtain ⟨t, ht, _, hent⟩ := RecalculateRayDirections_entries ratOps sampleCamera (by decide)
  have hstored : t[1 + 0 * sampleCamera.m_ViewportWidth]? = some ⟨0, -3 / 5, 4 / 5⟩ := by
    rw [hent 1 0 (by decide) (by decide), rayDirection_eq, sampleCamera_coord.1,
      sampleCamera_unproject.1]
  have hcentre : Camera.unproject ratOps sampleCamera (Camera.pixelCentre sampleCamera 1 0) =
      ⟨3 / 5, 0, 4 / 5⟩ := by
    rw [sampleCamera_coord.2, sampleCamera_unproject.2]
  refine ⟨⟨by decide, by decide⟩, ⟨t, ht, hstored, ?_⟩, sampleCamera_coord.1,
    sampleCamera_coord.2, hcentre⟩
  rw [hstored, hcentre]
  intro h
  have hx := congrArg (fun c : Option (Vec3 ℚ) => c.map (fun v => v.x)) h
  norm_num at hx

/-- Witness of C11: the viewport of two by one pixels of `sampleCamera`. -/
theorem RecalculateRayDirections_corner_witness :
    ∃ t, Camera.RecalculateRayDirections ratOps sampleCamera =
        some { sampleCamera with m_RayDirections := t } ∧
      t.length = sampleCamera.m_ViewportWidth * sampleCamera.m_ViewportHeight ∧
      ∀ x y, x < sampleCamera.m_ViewportWidth → y < sampleCamera.m_ViewportHeight →
        t[x + y * sampleCamera.m_ViewportWidth]? =
          some (Camera.unproject ratOps sampleCamera (Camera.pixelCoord sampleCamera x y)) ∧
        (sampleCamera.m_ViewportWidth ≤ 16777216 → sampleCamera.m_ViewportHeight ≤ 16777216 →
          Camera.pixelCoord sampleCamera x y =
            (2 * (x : ℚ) / (sampleCamera.m_ViewportWidth : ℚ) - 1,
              2 * (y : ℚ) / (sampleCamera.m_ViewportHeight : ℚ) - 1) ∧
          (-1 ≤ (Camera.pixelCoord sampleCamera x y).1 ∧
            (Camera.pixelCoord sampleCamera x y).1 < 1) ∧
          (-1 ≤ (Camera.pixelCoord sampleCamera x y).2 ∧
            (Camera.pixelCoord sampleCamera x y).2 < 1)) :=
  RecalculateRayDirections_corner ratOps sampleCamera (by decide)

/-! ## Blend weights of `TraceRayOnce` -/

/-- The red channel of the Fresnel term lies in `[0, 1]` when the metallic
value and the red albedo do, for a power function that maps `[0, 1]` into
itself at the exponent `5`. -/
theorem FresnelSchlick_red_mem (ops : GlmOps F) (mat : Material F) (cosTheta : F)
    (hpow : ∀ x : F, 0 ≤ x → x ≤ 1 → 0 ≤ ops.pow x 5 ∧ ops.pow x 5 ≤ 1)
    (hm : 0 ≤ mat.metallic ∧ mat.metallic ≤ 1)
    (ha : 0 ≤ mat.albedo.x ∧ mat.albedo.x ≤ 1) :
    0 ≤ (mat.FresnelSchlick ops cosTheta).x ∧ (mat.FresnelSchlick ops cosTheta).x ≤ 1 := by
  obtain ⟨hp0, hp1⟩ := hpow (clamp (1 - cosTheta) 0 1) (by simp [clamp]) (by simp [clamp])
  obtain ⟨hm0, hm1⟩ := hm
  obtain ⟨ha0, ha1⟩ := ha
  have hR0 : 0 ≤ mat.albedo.x * mat.metallic + 0.04 * (1 - mat.metallic) := by
    have h1 : 0 ≤ mat.albedo.x * mat.metallic := mul_nonneg ha0 hm0
    have h2 : (0 : F) ≤ 0.04 * (1 - mat.metallic) := by
      norm_num
      linarith
    linarith
  have hR1 : mat.albedo.x * mat.metallic + 0.04 * (1 - mat.metallic) ≤ 1 := by
    have h1 : mat.albedo.x * mat.metallic ≤ 1 * mat.metallic :=
      mul_le_mul_of_nonneg_right ha1 hm0
    have h2 : (0.04 : F) * (1 - mat.metallic) ≤ 1 * (1 - mat.metallic) :=
      mul_le_mul_of_nonneg_right (by norm_num) (by linarith)
    linarith
  simp only [Material.FresnelSchlick, Vec3.add_x, Vec3.sub_x, Vec3.scale_x, Vec3.splat]
  constructor
  · have := mul_nonneg (sub_nonneg.mpr hR1) hp0
    linarith
  · have := mul_nonneg (sub_nonneg.mpr hR1) (sub_nonneg.mpr hp1)
    nlinarith

/-- C12. The weights `diffuseFactor` and `specularFactor` with which
`TraceRayOnce` blends the direct and the indirect colour add up to one:
`(1 − m) (1 − f) + (m + (1 − m) f) = 1` for every `m` and `f`.  For a material
with metallic value and albedo channels in `[0, 1]` the red channel of
`FresnelSchlick` lies in `[0, 1]` for every `cosTheta`, and so do both
weights.  The power function is assumed to map `[0, 1]` into itself at the
exponent `5`. -/
theorem blend_weights_convex (ops : GlmOps F) (mat : Material F) (hitInfo : HitInfo F)
    (ray : Ray F) (directColor indirectColor : Vec3 F)
    (hpow : ∀ x : F, 0 ≤ x → x ≤ 1 → 0 ≤ ops.pow x 5 ∧ ops.pow x 5 ≤ 1)
    (hm : 0 ≤ mat.metallic ∧ mat.metallic ≤ 1)
    (ha : (0 ≤ mat.albedo.x ∧ mat.albedo.x ≤ 1) ∧ (0 ≤ mat.albedo.y ∧ mat.albedo.y ≤ 1) ∧
      (0 ≤ mat.albedo.z ∧ mat.albedo.z ≤ 1)) :
    (∀ m f : F, (1 - m) * (1 - f) + (m + (1 - m) * f) = 1) ∧
    Renderer.compose ops mat hitInfo ray directColor indirectColor =
      mat.GetEmission + mat.albedo *
        (directColor.scale (Renderer.diffuseFactor ops mat hitInfo ray) +
          indirectColor.scale (Renderer.specularFactor ops mat hitInfo ray)) ∧
    Renderer.diffuseFactor ops mat hitInfo ray + Renderer.specularFactor ops mat hitInfo ray = 1 ∧
    (∀ cosTheta : F, 0 ≤ (mat.FresnelSchlick ops cosTheta).x ∧
      (mat.FresnelSchlick ops cosTheta).x ≤ 1) ∧
    (0 ≤ Renderer.diffuseFactor ops mat hitInfo ray ∧
      Renderer.diffuseFactor ops mat hitInfo ray ≤ 1) ∧
    (0 ≤ Renderer.specularFactor ops mat hitInfo ray ∧
      Renderer.specularFactor ops mat hitInfo ray ≤ 1) := by
  obtain ⟨hf0, hf1⟩ := FresnelSchlick_red_mem ops mat
    (dot (normalize ops (-ray.direction)) hitInfo.normal) hpow hm ha.1
  obtain ⟨hm0, hm1⟩ := hm
  have hsum : Renderer.diffuseFactor ops mat hitInfo ray +
      Renderer.specularFactor ops mat hitInfo ray = 1 := by
    simp only [Renderer.diffuseFactor, Renderer.specularFactor]
    ring
  have hd0 : 0 ≤ Renderer.diffuseFactor ops mat hitInfo ray := by
    simp only [Renderer.diffuseFactor]
    exact mul_nonneg (sub_nonneg.mpr hm1) (sub_nonneg.mpr hf1)
  have hs0 : 0 ≤ Renderer.specularFactor ops mat hitInfo ray := by
    simp only [Renderer.specularFactor]
    exact add_nonneg hm0 (mul_nonneg (sub_nonneg.mpr hm1) hf0)
  refine ⟨fun m f => by ring, rfl, hsum,
    fun cosTheta => FresnelSchlick_red_mem ops mat cosTheta hpow ⟨hm0, hm1⟩ ha.1,
    ⟨hd0, by linarith⟩, ⟨hs0, by linarith⟩⟩

/-- The power function of `ratOps` maps `[0, 1]` into itself at the exponent
`5`. -/
theorem ratOps_pow_five (x : ℚ) (h0 : 0 ≤ x) (h1 : x ≤ 1) :
    0 ≤ ratOps.pow x 5 ∧ ratOps.pow x 5 ≤ 1 := by
  have h5 : Int.toNat ⌊(5 : ℚ)⌋ = 5 := by simp
  simp only [ratOps, h5]
  exact ⟨pow_nonneg h0 5, pow_le_one₀ h0 h1⟩

/-- Witness of C12: `sampleMaterial` seen along `headOnRay` at `surfaceHit`. -/
theorem blend_weights_convex_witness :
    Renderer.diffuseFactor ratOps sampleMaterial surfaceHit headOnRay +
      Renderer.specularFactor ratOps sampleMaterial surfaceHit headOnRay = 1 ∧
    (0 ≤ Renderer.diffuseFactor ratOps sampleMaterial surfaceHit headOnRay ∧
      Renderer.diffuseFactor ratOps sampleMaterial surfaceHit headOnRay ≤ 1) ∧
    (0 ≤ Renderer.specularFactor ratOps sampleMaterial surfaceHit headOnRay ∧
      Renderer.specularFactor ratOps sampleMaterial surfaceHit headOnRay ≤ 1) :=
  have h := blend_weights_convex ratOps sampleMaterial surfaceHit headOnRay ⟨0, 0, 0⟩ ⟨0, 0, 0⟩
    ratOps_pow_five (by norm_num [sampleMaterial])
    ⟨by norm_num [sampleMaterial], by norm_num [sampleMaterial], by norm_num [sampleMaterial]⟩
  ⟨h.2.2.1, h.2.2.2.2.1, h.2.2.2.2.2⟩

end Generic

end RayTracing
